import Mathlib

set_option maxRecDepth 100000

/-!  Shallow embedding of the vlong multiple-precision integer library
     (src/vlong.h, src/vlong.cpp; the 32-bit limb configuration that the
     header selects: `VLONG_32BIT`, `VLONG_MAX_DIGITS = 1024`,
     `VLONG_KARATSUBA_MUL_CUTOFF = 80`, DR and Montgomery reduction enabled).

     A `vstate` models one `vlong` object: `s` is the sign field
     (`MP_ZPOS = 1`, `MP_NEG = -1`) and `d` lists the first `nu` entries of
     the digit buffer, little-endian, base `2^32`.  Buffer cells at indices
     `nu` and above always hold zero between operations (`Grow`, `SetZero`
     and `SetValue` clear them), so they are not stored; reads past the end
     of the list (the C code does read `d[nu]` in places) yield `0` through
     `getD`.  Because `VLONG_MAX_DIGITS` is defined, `Grow(n)` fails with
     `VLONG_ERR_MEMORY_EXEED` exactly when `n > 1024`; that check is kept.

     Loops of the C code whose iteration count is not structurally bounded
     take a `fuel` argument and return the marker status `-1` on
     exhaustion; the C code itself only returns non-negative statuses, so
     the marker is distinguishable.  Bit operations on single digits
     (`x & mask`, `x >> k`, `x << k`) are written with `/`, `%` and `*` by
     powers of two, which is what they compute on the unsigned digits. -/

def uB : Nat := 4294967296

def VLONG_SUCCESS : Int := 0
def VLONG_ERR_MEMORY_EXEED : Int := 10
def VLONG_ERR_MEMORY_ALLOC : Int := 11
def VLONG_ERR_BUFFER_SMALL : Int := 13
def VLONG_ERR_INVALID_CHAR : Int := 14
def VLONG_ERR_BAD_ARG_1 : Int := 21
def VLONG_ERR_BAD_ARG_2 : Int := 22
def VLONG_ERR_BAD_ARG_3 : Int := 23
def VLONG_ERR_BAD_ARG_4 : Int := 24
def VLONG_ERR_OUT_OF_RANGE : Int := 25
def VLONG_ERR_DIV_BY_ZERO : Int := 26
def VLONG_ERR_NEGATIVE_ARG : Int := 27
def VLONG_ERR_NO_INVERSE : Int := 28

/-- Fuel-exhaustion marker of this embedding (not a status of the C code). -/
def FUEL_OUT : Int := -1

structure vstate where
  s : Int
  d : List Nat
deriving Repr, DecidableEq

/-- Read a digit; like the zero-filled C buffer, indices past `nu` give 0. -/
def getD (l : List Nat) (i : Nat) : Nat := l.getD i 0

/-- Value of a little-endian digit list. -/
def val : List Nat → Nat
  | [] => 0
  | x :: xs => x + uB * val xs

/-- Signed value of a state. -/
def vstate.toZ (x : vstate) : Int := x.s * (val x.d : Int)

/-- All digits fit in 32 bits. -/
def wfD (l : List Nat) : Prop := ∀ u ∈ l, u < uB

def vstate.wf (x : vstate) : Prop := wfD x.d ∧ (x.s = 1 ∨ x.s = -1)

/-- The clamp invariant of the spec: `used = 0` or `digits[used-1] ≠ 0`. -/
def clampInv (x : vstate) : Prop := x.d.getLast? ≠ some 0

/-- The sign invariant of the spec: sign is `+` whenever the magnitude is zero. -/
def signInv (x : vstate) : Prop := x.d = [] → x.s = 1

instance (l : List Nat) : Decidable (wfD l) := by
  unfold wfD; infer_instance

instance (x : vstate) : Decidable (x.wf) := by
  unfold vstate.wf; infer_instance

instance (x : vstate) : Decidable (clampInv x) := by
  unfold clampInv; infer_instance

instance (x : vstate) : Decidable (signInv x) := by
  unfold signInv; infer_instance

/-- The zero state (`SetZero`: `nu = 0`, sign `+`). -/
def zeroS : vstate := { s := 1, d := [] }

/-- Drop high zero digits of the digit list (the loop in `vlong::Clamp`). -/
def clampD : List Nat → List Nat
  | [] => []
  | x :: xs =>
    match clampD xs with
    | [] => if x = 0 then [] else [x]
    | y :: ys => x :: y :: ys

/-- `vlong::Clamp`: drop trailing zero digits, reset sign to `+` on zero. -/
def Clamp (x : vstate) : vstate :=
  let d2 := clampD x.d
  { s := if d2 = [] then 1 else x.s, d := d2 }

/-- `Grow(n)`: with `VLONG_MAX_DIGITS = 1024` enabled, the allocation is
    refused exactly when more than 1024 digits are requested. -/
def growOk (n : Nat) : Except Int Unit :=
  if n > 1024 then Except.error VLONG_ERR_MEMORY_EXEED else Except.ok ()

/-- Zero-extend a digit list to length `n` (the effect of `Grow` plus
    setting `nu = n`). -/
def extendTo (l : List Nat) (n : Nat) : List Nat :=
  l ++ List.replicate (n - l.length) 0

/-- `vlong::SetValue(sdig_t)`. -/
def SetValue (v : Int) : vstate :=
  if v = 0 then zeroS
  else if 0 < v then { s := 1, d := [v.toNat] }
  else { s := -1, d := [(-v).toNat] }

/-- Digit-by-digit comparison of equal-length lists, most significant
    first (the recursion compares the tail, i.e. the higher digits, before
    the head; this is the `for (i=a.nu-1; i>=0; i--)` loop). -/
def cmpDigs : List Nat → List Nat → Int
  | [], _ => 0
  | _, [] => 0
  | x :: xs, y :: ys =>
    let r := cmpDigs xs ys
    if r = 0 then (if x > y then 1 else if x < y then -1 else 0) else r

/-- `vlong::CompareMag` on raw digit lists: digit count first, then
    digits from the most significant end. -/
def cmpMagD (l1 l2 : List Nat) : Int :=
  if l1.length > l2.length then 1
  else if l1.length < l2.length then -1
  else cmpDigs l1 l2

/-- `vlong::CompareMag`. -/
def cmpMag (a b : vstate) : Int := cmpMagD a.d b.d

/-- `vlong::Compare(sdig_t)` (vlong.cpp:787). -/
def CompareS (a : vstate) (x : Int) : Int :=
  if a.d = [] then
    (if x = 0 then 0 else if 0 < x then 1 else -1)
  else if a.s = -1 ∧ 0 ≤ x then -1
  else if a.s = 1 ∧ x ≤ 0 then -1
  else if 1 < a.d.length then (if a.s = -1 then -1 else 1)
  else if 0 < x then
    (if (getD a.d 0 : Int) > x then 1 else if (getD a.d 0 : Int) < x then -1 else 0)
  else
    (if (getD a.d 0 : Int) > -x then -1 else if (getD a.d 0 : Int) < -x then 1 else 0)

/-- `vlong::Compare(const vlong&)`. -/
def CompareL (a b : vstate) : Int :=
  if a.d = [] ∧ b.d = [] then 0
  else if a.s ≠ b.s then (if a.s < 0 then -1 else 1)
  else if a.s < 0 then cmpMag b a else cmpMag a b

/-- `operator > (sdig_t)` from vlong.h. -/
def opGt (a : vstate) (x : Int) : Bool := CompareS a x > 0

/-- `operator >= (sdig_t)` from vlong.h. -/
def opGe (a : vstate) (x : Int) : Bool := CompareS a x ≥ 0

/-- `operator == (sdig_t)` from vlong.h. -/
def opEq (a : vstate) (x : Int) : Bool := CompareS a x = 0

/-- `operator != (sdig_t)` from vlong.h. -/
def opNe (a : vstate) (x : Int) : Bool := CompareS a x ≠ 0

/-- Carry propagation of the short-addition loop (`vlong::Add(a, sdig_t)`,
    vlong.cpp:1388-1408): add `c` at the low digit and ripple the carry. -/
def addCarry : List Nat → Nat → List Nat
  | l, 0 => l
  | [], c => [c]
  | x :: xs, c => (x + c) % uB :: addCarry xs ((x + c) / uB)

/-- Borrow propagation of the short-subtraction loop
    (`vlong::Sub(a, sdig_t)`, vlong.cpp:1456-1468). -/
def subBorrow : List Nat → Nat → List Nat
  | [], _ => []
  | x :: xs, v => if x < v then (x + uB - v) :: subBorrow xs 1 else (x - v) :: xs

/-- The single clamp step `if (d[nu-1]==0) nu--;` used by short `Sub` and
    by `ShiftRight`. -/
def dropTopIfZero (l : List Nat) : List Nat :=
  match l.getLast? with
  | some 0 => l.dropLast
  | _ => l

/-- Same-sign branch of short addition: `Grow(a.nu+1)` then the carry loop. -/
def addSame (a : vstate) (bmag : Nat) : Except Int vstate :=
  match growOk (a.d.length + 1) with
  | Except.error e => Except.error e
  | Except.ok _ => Except.ok { a with d := addCarry a.d bmag }

/-- Same-sign branch of short subtraction (vlong.cpp:1439-1473): the
    single-digit special case flips the sign, otherwise borrow and drop a
    single zero top digit. -/
def subSame (a : vstate) (bmag : Nat) : Except Int vstate :=
  match growOk a.d.length with
  | Except.error e => Except.error e
  | Except.ok _ =>
    if a.d.length = 1 ∧ getD a.d 0 ≤ bmag then
      (if bmag - getD a.d 0 = 0 then Except.ok zeroS
       else Except.ok { s := if a.s = 1 then -1 else 1, d := [bmag - getD a.d 0] })
    else Except.ok { a with d := dropTopIfZero (subBorrow a.d bmag) }

/-- `vlong::Add(const vlong&, sdig_t)`.  When the signs differ the source
    dispatches to `Sub(a, -b)`, whose same-sign branch then runs; that
    branch is inlined here (`subSame`).  On `b = 0` the receiver is left
    alone, which for the aliased calls of the source means `a`. -/
def AddS (a : vstate) (b : Int) : Except Int vstate :=
  if b = 0 then Except.ok a
  else if a.d = [] then Except.ok (SetValue b)
  else if (a.s = -1 ∧ 0 < b) ∨ (a.s = 1 ∧ b < 0) then subSame a b.natAbs
  else addSame a b.natAbs

/-- `vlong::Sub(const vlong&, sdig_t)`; the opposite-sign case dispatches
    to addition of `|b|` (the source calls `Add(a, -b)`). -/
def SubS (a : vstate) (b : Int) : Except Int vstate :=
  if b = 0 then Except.ok a
  else if a.d = [] then Except.ok (SetValue (-b))
  else if (a.s = -1 ∧ 0 < b) ∨ (a.s = 1 ∧ b < 0) then addSame a b.natAbs
  else subSame a b.natAbs

/-- Digit list of `prvAddMag` (vlong.cpp:1714): ripple-carry addition over
    the common digits, then over the longer operand, final carry appended. -/
def addMag : List Nat → List Nat → Nat → List Nat
  | [], [], c => if c > 0 then [c] else []
  | [], y :: ys, c => (y + c) % uB :: addMag [] ys ((y + c) / uB)
  | x :: xs, [], c => (x + c) % uB :: addMag xs [] ((x + c) / uB)
  | x :: xs, y :: ys, c => (x + y + c) % uB :: addMag xs ys ((x + y + c) / uB)

/-- Digit list of `prvSubMag` (vlong.cpp:1778), assuming `|a| >= |b|`:
    borrow subtraction over all digits of the first operand. -/
def subMagAux : List Nat → List Nat → Nat → List Nat
  | [], _, _ => []
  | x :: xs, ys, w =>
    if x < getD ys 0 + w then (x + uB - (getD ys 0 + w)) :: subMagAux xs ys.tail 1
    else (x - (getD ys 0 + w)) :: subMagAux xs ys.tail 0

def subMagD (l1 l2 : List Nat) : List Nat := subMagAux l1 l2 0

/-- `vlong::Add(const vlong&, const vlong&)` (vlong.cpp:1825): same signs
    add magnitudes and keep the sign (`prvAddMag` does not clamp - its
    `Clamp()` call is commented out in the source); opposite signs
    subtract the smaller magnitude from the larger, take the sign of the
    larger, and clamp (`prvSubMag` ends with `Clamp()`). -/
def AddL (a b : vstate) : Except Int vstate :=
  if a.s = b.s then
    match growOk (max a.d.length b.d.length + 1) with
    | Except.error e => Except.error e
    | Except.ok _ => Except.ok { s := a.s, d := addMag a.d b.d 0 }
  else if cmpMag a b = -1 then
    match growOk b.d.length with
    | Except.error e => Except.error e
    | Except.ok _ => Except.ok (Clamp { s := b.s, d := subMagD b.d a.d })
  else
    match growOk a.d.length with
    | Except.error e => Except.error e
    | Except.ok _ => Except.ok (Clamp { s := a.s, d := subMagD a.d b.d })

/-- `vlong::Sub(const vlong&, const vlong&)` (vlong.cpp:1861). -/
def SubL (a b : vstate) : Except Int vstate :=
  if a.s ≠ b.s then
    match growOk (max a.d.length b.d.length + 1) with
    | Except.error e => Except.error e
    | Except.ok _ => Except.ok { s := a.s, d := addMag a.d b.d 0 }
  else if cmpMagD a.d b.d = 1 then
    match growOk a.d.length with
    | Except.error e => Except.error e
    | Except.ok _ => Except.ok (Clamp { s := a.s, d := subMagD a.d b.d })
  else
    match growOk b.d.length with
    | Except.error e => Except.error e
    | Except.ok _ => Except.ok (Clamp { s := if a.s = 1 then -1 else 1, d := subMagD b.d a.d })

/-- `prvRightShiftDigits` (vlong.cpp:950): drop low digits; shifting away
    everything is `SetZero` (which also resets the sign). -/
def prvRightShiftDigits (x : vstate) (digs : Nat) : vstate :=
  if digs = 0 then x
  else if digs ≥ x.d.length then zeroS
  else { x with d := x.d.drop digs }

/-- `prvLeftShiftDigits` (vlong.cpp:929): prepend zero digits.  Run on a
    zero value this yields a block of zero digits with `nu = digs`, exactly
    as in the source (the result is not clamped). -/
def prvLeftShiftDigits (x : vstate) (digs : Nat) : Except Int vstate :=
  if digs = 0 then Except.ok x
  else match growOk (x.d.length + digs) with
    | Except.error e => Except.error e
    | Except.ok _ => Except.ok { x with d := List.replicate digs 0 ++ x.d }

/-- Sub-digit part of `ShiftRight` (vlong.cpp:990-1006): each digit is its
    own high bits or-ed with the low `b2` bits of the next digit. -/
def srBits (b2 : Nat) : List Nat → List Nat
  | [] => []
  | x :: xs => (x / 2 ^ b2 + getD xs 0 % 2 ^ b2 * 2 ^ (32 - b2)) :: srBits b2 xs

/-- `vlong::ShiftRight` for a non-negative bit count (vlong.cpp:970). -/
def shiftRightN (a : vstate) (bits : Nat) : vstate :=
  if a.d.length ≤ bits / 32 then zeroS
  else
    let d1 := a.d.drop (bits / 32)
    let d2 := if bits % 32 > 0 then srBits (bits % 32) d1 else d1
    let d3 := dropTopIfZero d2
    { s := if d3 = [] then 1 else a.s, d := d3 }

/-- Sub-digit part of `ShiftLeft` (vlong.cpp:1033-1051) with its carry. -/
def slBits (b2 : Nat) : List Nat → Nat → List Nat
  | [], u => if u > 0 then [u] else []
  | x :: xs, u => (x * 2 ^ b2 + u) % uB :: slBits b2 xs ((x * 2 ^ b2 + u) / uB)

/-- `vlong::ShiftLeft` for a non-negative bit count (vlong.cpp:1016). -/
def shiftLeftN (a : vstate) (bits : Nat) : Except Int vstate :=
  match growOk (a.d.length + bits / 32 + 1) with
  | Except.error e => Except.error e
  | Except.ok _ =>
    let d1 := List.replicate (bits / 32) 0 ++ a.d
    let d2 := if bits % 32 > 0 then slBits (bits % 32) d1 0 else d1
    Except.ok { a with d := d2 }

/-- `vlong::ShiftRight(a, int bits)`: negative counts delegate. -/
def ShiftRightOp (a : vstate) (bits : Int) : Except Int vstate :=
  if bits < 0 then shiftLeftN a (-bits).toNat else Except.ok (shiftRightN a bits.toNat)

/-- `vlong::ShiftLeft(a, int bits)`: negative counts delegate. -/
def ShiftLeftOp (a : vstate) (bits : Int) : Except Int vstate :=
  if bits < 0 then Except.ok (shiftRightN a (-bits).toNat) else shiftLeftN a bits.toNat

/-- Bit length of one digit, the `while (dig!=0) {dig>>=1;bits++}` loop of
    `GetNumBits`; the first argument is fuel, always called with `n` itself
    so the recursion is structural yet complete. -/
def bitlenAux : Nat → Nat → Nat
  | 0, _ => 0
  | f + 1, n => if n = 0 then 0 else bitlenAux f (n / 2) + 1

def bitlen (n : Nat) : Nat := bitlenAux n n

/-- `vlong::GetNumBits` (vlong.cpp:875). -/
def GetNumBits (x : vstate) : Nat :=
  if x.d = [] then 0
  else 32 * (x.d.length - 1) + bitlen (getD x.d (x.d.length - 1))

/-- `vlong::GetNumMSB` is `GetNumBits` (the decrement is commented out). -/
def GetNumMSB (x : vstate) : Nat := GetNumBits x

/-- Digit-by-digit multiply-and-carry sweep of `prvMulDig`
    (vlong.cpp:1504-1521). -/
def mulDigCarry (b : Nat) : List Nat → Nat → List Nat
  | [], u => if u > 0 then [u] else []
  | x :: xs, u => (x * b + u) % uB :: mulDigCarry b xs ((x * b + u) / uB)

/-- `vlong::prvMulDig` (vlong.cpp:1493): multiply the magnitude by one
    digit; the sign of the receiver is left for the caller to assign, and
    the result is not clamped (`b = 0` leaves `nu = a.nu` zero digits). -/
def prvMulDig (a : vstate) (b : Nat) : Except Int vstate :=
  match growOk (a.d.length + 1) with
  | Except.error e => Except.error e
  | Except.ok _ => Except.ok { a with d := mulDigCarry b a.d 0 }

/-- `vlong::Mul(const vlong&, sdig_t)` (vlong.cpp:1476). -/
def MulS (a : vstate) (b : Int) : Except Int vstate :=
  match prvMulDig a b.natAbs with
  | Except.error e => Except.error e
  | Except.ok x =>
    Except.ok { x with s := if (a.s = 1 ∧ b < 0) ∨ (a.s = -1 ∧ 0 < b) then -1 else 1 }

/-- `prvIsPow2` (vlong.cpp:1570): powers of two and the shift count the
    loop `b >>= 1; while (b) ...` produces. -/
def prvIsPow2 (b : Nat) : Option Nat :=
  if b = 0 then none
  else if Nat.land b (b - 1) ≠ 0 then none
  else some (bitlen b - 1)

/-- Truncate the digit list to its low `bits` bits: zero the digits above
    the cut and mask the digit the cut lands in.  Shared shape of
    `prvModPow2` and `prvMod2d`. -/
def maskTop (l : List Nat) (bits : Nat) : List Nat :=
  (l.take ((bits + 31) / 32)).set (bits / 32) (getD l (bits / 32) % 2 ^ (bits % 32))

/-- `vlong::prvModPow2` (vlong.cpp:1528). -/
def prvModPow2 (a : vstate) (bits : Nat) : vstate :=
  if bits = 0 then zeroS
  else if bits ≥ a.d.length * 32 then a
  else Clamp { a with d := maskTop a.d bits }

/-- `vlong::prvMod2d` (vlong.cpp:2543); same truncation with an `int` bound. -/
def prvMod2d (a : vstate) (b : Int) : vstate :=
  if b ≤ 0 then zeroS
  else if b ≥ (a.d.length * 32 : Int) then a
  else Clamp { a with d := maskTop a.d b.toNat }

/-- `vlong::prvDivPow2` (vlong.cpp:1552): quotient by shifting, remainder
    by masking. -/
def prvDivPow2 (a : vstate) (bits : Nat) : vstate × vstate :=
  (shiftRightN a bits, prvModPow2 a bits)

/-- The C cast `(udig_t) b` of a signed digit. -/
def toUdig (b : Int) : Nat := (b % (4294967296 : Int)).toNat

/-- The C cast `(sdig_t) w` of an unsigned digit. -/
def toSdig (w : Nat) : Int :=
  if w < 2147483648 then (w : Int) else (w : Int) - 4294967296

/-- The quotient-and-remainder sweep of `prvDivInt` (vlong.cpp:1628-1641),
    most significant digit first, remainder carried in the wide word. -/
def divIntCore (b : Nat) : List Nat → List Nat × Nat
  | [] => ([], 0)
  | x :: xs =>
    let p := divIntCore b xs
    ((p.2 * uB + x) / b :: p.1, (p.2 * uB + x) % b)

/-- `vlong::prvDivInt` (vlong.cpp:1587).  Note the zero-dividend branch:
    the quotient is zeroed but the remainder is set to `b` itself
    (`*r = b;` at vlong.cpp:1599).  The quotient is produced with
    `nu = a.nu` (unclamped) and the sign of the receiver is assigned by the
    callers, modelled here as `+`. -/
def prvDivInt (a : vstate) (b : Nat) : Except Int (vstate × Nat) :=
  if b = 0 then Except.error VLONG_ERR_DIV_BY_ZERO
  else if a.d = [] then Except.ok (zeroS, b)
  else if b = 1 then Except.ok (a, 0)
  else match prvIsPow2 b with
    | some ix => Except.ok (shiftRightN a ix, getD a.d 0 % 2 ^ ix)
    | none =>
      let p := divIntCore b a.d
      Except.ok ({ s := 1, d := p.1 }, p.2)

/-- `vlong::Div(const vlong&, sdig_t, sdig_t*)` (vlong.cpp:1649).  The
    divisor is passed to `prvDivInt` as `b`, i.e. through the implicit
    `udig_t` conversion, so a negative `b` divides by `2^32 + b`; only the
    `|b| = 1` short-circuit uses the absolute value. -/
def DivS (a : vstate) (b : Int) : Except Int (vstate × Int) :=
  let signq : Int := if (b < 0 ∧ a.s = 1) ∨ (0 < b ∧ a.s = -1) then -1 else 1
  if b.natAbs = 1 then Except.ok ({ a with s := signq }, 0)
  else
    match prvDivInt a (toUdig b) with
    | Except.error e => Except.error e
    | Except.ok (q, r2) =>
      let r : Int := if a.s = -1 then -(toSdig r2) else toSdig r2
      Except.ok (Clamp { q with s := signq }, r)

/-- `vlong::Mod(const vlong&, sdig_t)` (vlong.cpp:1690): divide into a
    temporary and `SetValue` the remainder on success; on error the
    receiver keeps its previous value. -/
def ModS (recv : vstate) (a : vstate) (b : Int) : Int × vstate :=
  match DivS a b with
  | Except.error e => (e, recv)
  | Except.ok (_, r) => (VLONG_SUCCESS, SetValue r)

/-- `vlong::ModDig` (vlong.cpp:1702): remainder only, `0` for `b = 0`. -/
def ModDig (a : vstate) (b : Int) : Int :=
  if b = 0 then 0
  else match DivS a b with
    | Except.error _ => 0
    | Except.ok (_, r) => r

/-- Inner column loop of `prvMulBaseline` (vlong.cpp:2033-2045): at most
    `m` digits of `bd` are combined into `buf` starting at `pos`; returns
    the buffer and the final carry. -/
def mbRow (t1 : Nat) : Nat → List Nat → Nat → List Nat → Nat → List Nat × Nat
  | 0, _, _, buf, u => (buf, u)
  | _ + 1, [], _, buf, u => (buf, u)
  | m + 1, y :: ys, pos, buf, u =>
    mbRow t1 m ys (pos + 1) (buf.set pos ((getD buf pos + t1 * y + u) % uB))
      ((getD buf pos + t1 * y + u) / uB)

/-- Outer loop of `prvMulBaseline` (vlong.cpp:2024-2049): one row per digit
    of `a`; the final carry of a row is stored only when it lands below
    `digs` (writes at or above `digs` land above `nu` in the C buffer and
    are never read, so dropping them, as `List.set` does past the end,
    matches). -/
def mbOuter (bd : List Nat) (nmin digs : Nat) : List Nat → Nat → List Nat → List Nat
  | [], _, buf => buf
  | t1 :: as2, i, buf =>
    let p := mbRow t1 nmin bd i buf 0
    mbOuter bd nmin digs as2 (i + 1) (if i + nmin < digs then p.1.set (i + nmin) p.2 else p.1)

/-- `vlong::prvMulBaseline` (vlong.cpp:2008): schoolbook multiplication
    truncated to `ndigs` output digits, clamped; the sign is assigned by
    the caller (`Mul`). -/
def prvMulBaseline (a b : vstate) (ndigs : Nat) : Except Int vstate :=
  let digs := min (a.d.length + b.d.length) ndigs
  match growOk digs with
  | Except.error e => Except.error e
  | Except.ok _ =>
    let nmin := min ndigs b.d.length
    Except.ok (Clamp { s := 1, d := mbOuter b.d nmin digs a.d 0 (List.replicate digs 0) })

/-- `vlong::Mul(const vlong&, const vlong&, size_t)` (vlong.cpp:2057) with
    `prvMulKaratsuba` (vlong.cpp:1929) inlined as the `nmin >= 80` branch;
    the fuel decreases at each Karatsuba recursion.  The truncation branch
    (`x->nu > digs`) keeps the low `digs` digits and sets `nu = digs`; the
    buggy byte count of its `memset` only leaves stale bytes above `nu`,
    which the value never reads, so at this level it is a plain `take`. -/
def MulL : Nat → vstate → vstate → Nat → Except Int vstate
  | 0, _, _, _ => Except.error FUEL_OUT
  | f + 1, a, b, maxdigs => do
    let sign : Int := if a.s = b.s then 1 else -1
    if a.d = [] ∨ b.d = [] then pure zeroS
    else
      let nmin := min a.d.length b.d.length
      let digs0 := a.d.length + b.d.length
      let _ ← growOk digs0
      let digs := if maxdigs > 0 ∧ maxdigs < digs0 then maxdigs else digs0
      let x ←
        if nmin ≥ 80 then do
          -- prvMulKaratsuba
          let B2 := nmin / 2
          let _ ← growOk (B2 * 2)
          let _ ← growOk (a.d.length - B2)
          let _ ← growOk B2
          let _ ← growOk (b.d.length - B2)
          let x0 := Clamp { s := 1, d := a.d.take B2 }
          let x1 : vstate := { s := 1, d := a.d.drop B2 }
          let y0 := Clamp { s := 1, d := b.d.take B2 }
          let y1 : vstate := { s := 1, d := b.d.drop B2 }
          let x0y0 ← MulL f x0 y0 0
          let x1y1 ← MulL f x1 y1 0
          let t1a ← AddL x1 x0
          let x0b ← AddL y1 y0
          let t1b ← MulL f x0b t1a 0
          let x0c ← AddL x0y0 x1y1
          let t1c ← SubL t1b x0c
          let t1d ← prvLeftShiftDigits t1c B2
          let x1y1b ← prvLeftShiftDigits x1y1 (B2 * 2)
          let t1e ← AddL x0y0 t1d
          AddL t1e x1y1b
        else
          prvMulBaseline a b digs
      let x2 := if x.d.length > digs then { x with d := x.d.take digs } else x
      pure { x2 with s := sign }

/-- `vlong::Sqr` (vlong.cpp:2106). -/
def Sqr (f : Nat) (a : vstate) : Except Int vstate := MulL f a a 0

/-- The trial-quotient correction of Algorithm D (vlong.cpp:2218-2235):
    starting from the guess plus one, decrement until
    `q * (y_t * B + y_(t-1)) <= x_i * B^2 + x_(i-1) * B + x_(i-2)`;
    the comparison is the source `CompareMag` on the raw two- and
    three-digit temporaries. -/
def qAdjust (yt yt1 xi xi1 xi2 : Nat) : Nat → Nat
  | 0 => 0
  | k + 1 =>
    if cmpMagD (mulDigCarry k [yt1, yt] 0) [xi2, xi1, xi] = 1 then
      qAdjust yt yt1 xi xi1 xi2 k
    else k

/-- The normalization loop of Algorithm D, step before step 3
    (vlong.cpp:2184-2188): while `x >= y`, count and subtract. -/
def divBigPre (y : vstate) : Nat → vstate → Nat → Except Int (vstate × Nat)
  | 0, _, _ => Except.error FUEL_OUT
  | fu + 1, x, qd =>
    if cmpMag x y = -1 then Except.ok (x, qd)
    else divBigPre y fu (Clamp { s := x.s, d := subMagD x.d y.d }) (qd + 1)

/-- Step 3 of Algorithm D (vlong.cpp:2194-2250), one iteration per value
    of `i` from `n` down to `t+1`; `cnt = i - t`. -/
def divBigLoop (t : Nat) (y : vstate) : Nat → vstate → List Nat → Except Int (vstate × List Nat)
  | 0, x, q => Except.ok (x, q)
  | cnt + 1, x, q => do
    let i := t + cnt + 1
    if i > x.d.length then divBigLoop t y cnt x q
    else
      let yt := getD y.d t
      let xi := getD x.d i
      let xi1 := if i ≥ 1 then getD x.d (i - 1) else 0
      let xi2 := if i ≥ 2 then getD x.d (i - 2) else 0
      let yt1 := if t ≥ 1 then getD y.d (t - 1) else 0
      let qd0 := if xi = yt then uB - 1 else min ((xi * uB + xi1) / yt) (uB - 1)
      let qd := qAdjust yt yt1 xi xi1 xi2 (qd0 + 1)
      let t1 : vstate := { s := 1, d := mulDigCarry qd y.d 0 }
      let t1s ← prvLeftShiftDigits t1 (i - t - 1)
      let x2 ← SubL x t1s
      if x2.s = -1 then do
        let t2s ← prvLeftShiftDigits { s := 1, d := y.d } (i - t - 1)
        let x3 ← AddL x2 t2s
        divBigLoop t y cnt x3 (q.set (i - t - 1) ((qd + uB - 1) % uB))
      else
        divBigLoop t y cnt x2 (q.set (i - t - 1) qd)

/-- `vlong::prvDivBig` (vlong.cpp:2126), Knuth Algorithm D.  Note the
    equal-magnitude fast path: the quotient receiver gets `SetValue(a)`
    with the quotient sign, i.e. the value `±a`, not `±1`
    (vlong.cpp:2145-2154). -/
def prvDivBig (f : Nat) (a b : vstate) : Except Int (vstate × vstate) :=
  if b.d = [] then Except.error VLONG_ERR_DIV_BY_ZERO
  else
    let sign : Int := if a.s = b.s then 1 else -1
    let cmp := cmpMag a b
    if cmp = -1 then Except.ok (zeroS, a)
    else if cmp = 0 then Except.ok ({ s := sign, d := a.d }, zeroS)
    else do
      let _ ← growOk (a.d.length + 2)
      let x0 : vstate := { s := 1, d := a.d }
      let y0 : vstate := { s := 1, d := b.d }
      let nbits := GetNumBits y0 % 32
      let norm := if nbits < 31 then 31 - nbits else 0
      let x ← if nbits < 31 then shiftLeftN x0 norm else pure x0
      let y ← if nbits < 31 then shiftLeftN y0 norm else pure y0
      let n := x.d.length - 1
      let t := y.d.length - 1
      let ys ← prvLeftShiftDigits y (n - t)
      let pr ← divBigPre ys f x 0
      let y2 := prvRightShiftDigits ys (n - t)
      let q0 := (List.replicate (a.d.length + 2) 0).set (n - t) pr.2
      let lp ← divBigLoop t y2 (n - t) pr.1 q0
      let qv : vstate := { s := sign, d := clampD lp.2 }
      let rv : vstate := { s := a.s, d := (shiftRightN lp.1 norm).d }
      Except.ok (qv, rv)

/-- `vlong::Div(const vlong&, const vlong&, vlong*)` (vlong.cpp:2272). -/
def DivL (f : Nat) (a b : vstate) : Except Int (vstate × vstate) := prvDivBig f a b

/-- `vlong::Mod(const vlong&, const vlong&)` (vlong.cpp:2278).  A zero
    divisor is answered with `SetZero()` and `VLONG_SUCCESS`, not an error. -/
def ModL (f : Nat) (a b : vstate) : Except Int vstate :=
  if b.d = [] then Except.ok zeroS
  else match prvDivBig f a b with
    | Except.error e => Except.error e
    | Except.ok p => Except.ok p.2

/-- `vlong::MulMod` (vlong.cpp:2098). -/
def MulMod (f : Nat) (a b n : vstate) : Except Int vstate := do
  let t ← MulL f a b 0
  ModL f t n

/-- The write `d[dig] = (d[dig] & (~(bit << pos))) | (bit << pos)` of
    `SetBit` (vlong.cpp:1075-1076), in arithmetic form: with `bit = 0` the
    mask is empty and the digit is untouched; with `bit = 1` the old bit is
    removed and the new one added. -/
def writeBit (v pos b : Nat) : Nat :=
  if b = 0 then v else v - v / 2 ^ pos % 2 * 2 ^ pos + 2 ^ pos

/-- `vlong::SetBit` (vlong.cpp:1056): the bit index splits into digit
    `num / 32` and position `num % 32`; out-of-range positions grow the
    number only when setting a one bit. -/
def SetBit (x : vstate) (num : Nat) (bit : Nat) : Except Int vstate :=
  if num / 32 ≥ x.d.length then
    if bit % 2 > 0 then
      match growOk (num / 32 + 1) with
      | Except.error e => Except.error e
      | Except.ok _ =>
        Except.ok (vstate.mk x.s ((extendTo x.d (num / 32 + 1)).set (num / 32) (writeBit (getD (extendTo x.d (num / 32 + 1)) (num / 32)) (num % 32) (bit % 2))))
    else Except.ok x
  else Except.ok (vstate.mk x.s (x.d.set (num / 32) (writeBit (getD x.d (num / 32)) (num % 32) (bit % 2))))

/-- `vlong::GetBit` (vlong.cpp:1081): the bit as 0/1, but an index at or
    beyond the stored digits returns the value `VLONG_ERR_OUT_OF_RANGE`. -/
def GetBit (x : vstate) (num : Nat) : Int :=
  if num / 32 ≥ x.d.length then VLONG_ERR_OUT_OF_RANGE
  else (getD x.d (num / 32) / 2 ^ (num % 32) % 2 : Nat)

/-- The xor sweep of `vlong::Xor` over the common digits. -/
def xorLow : List Nat → List Nat → List Nat
  | l, [] => l
  | [], _ => []
  | x :: xs, y :: ys => Nat.xor x y :: xorLow xs ys

/-- `vlong::Xor` (vlong.cpp:1094) for a receiver distinct from both
    arguments: `aliased` is the source pointer test `&a == &b`.  The
    receiver is set to the longer operand and the low digits are xor-ed in
    place; the result is never clamped. -/
def XorOp (aliased : Bool) (a b : vstate) : Except Int vstate :=
  if aliased then Except.ok zeroS
  else
    let t1 := if a.d.length > b.d.length then a else b
    let t2 := if a.d.length > b.d.length then b else a
    match growOk t1.d.length with
    | Except.error e => Except.error e
    | Except.ok _ => Except.ok { s := t1.s, d := xorLow t1.d t2.d }

/-- Byte `j` (little-endian byte order across the little-endian digits) of
    a digit list: `(d[j/4] & (0xFF << (j%4)*8)) >> (j%4)*8`. -/
def byteOf (l : List Nat) (j : Nat) : Nat := getD l (j / 4) / 2 ^ (8 * (j % 4)) % 256

/-- `vlong::GetBytes` (vlong.cpp:1141): big-endian read of `count` bytes. -/
def GetBytes (x : vstate) (start count : Nat) : Except Int (List Nat) :=
  if start + count > x.d.length * 4 then Except.error VLONG_ERR_OUT_OF_RANGE
  else Except.ok ((List.range count).map (fun i => byteOf x.d (start + count - 1 - i)))

/-- The write `d[dig] = (d[dig] & (~(0xFF << pos*8))) | (byte << pos*8)`
    of `SetBytes` (vlong.cpp:1134-1135), in arithmetic form: the old byte
    is removed from the digit and the new one added. -/
def writeByte (l : List Nat) (p b : Nat) : List Nat :=
  l.set (p / 4)
    (getD l (p / 4) - getD l (p / 4) / 2 ^ (8 * (p % 4)) % 256 * 2 ^ (8 * (p % 4)) +
      b * 2 ^ (8 * (p % 4)))

/-- The byte-store loop of `SetBytes` (vlong.cpp:1129-1136): byte `i` of
    the input lands at byte position `start + count - 1 - i`, which when
    the bytes are consumed left to right is `start` plus the number of
    bytes still to come. -/
def sbLoop (start : Nat) : List Nat → List Nat → List Nat
  | dl, [] => dl
  | dl, b :: bs => sbLoop start (writeByte dl (start + bs.length) b) bs

/-- `vlong::SetBytes` (vlong.cpp:1115).  When the bytes reach past the
    stored digits it calls `Grow(start+count+1)` - a BYTE count passed to
    the digit allocator - and sets `nu = ceil((start+count)/4)`. -/
def SetBytes (x : vstate) (start count : Nat) (buf : List Nat) : Except Int vstate :=
  if start + count > x.d.length * 4 then
    match growOk (start + count + 1) with
    | Except.error e => Except.error e
    | Except.ok _ =>
      Except.ok { x with d := sbLoop start (extendTo x.d ((start + count + 3) / 4)) (buf.take count) }
  else Except.ok { x with d := sbLoop start x.d (buf.take count) }

/-- `vlong::FromBinary` (vlong.cpp:466): the sign is set to `+` before
    `SetBytes` runs, so it is `+` even when `SetBytes` fails. -/
def FromBinary (x : vstate) (buf : List Nat) (buflen : Nat) : Int × vstate :=
  match SetBytes { x with s := 1 } 0 buflen buf with
  | Except.error e => (e, { x with s := 1 })
  | Except.ok y => (VLONG_SUCCESS, y)

/-- `vlong::ToBinary` (vlong.cpp:777): the buffer check compares the DIGIT
    count against the byte length, then `GetBytes` fills the whole buffer. -/
def ToBinary (x : vstate) (buflen : Nat) : Except Int (List Nat) :=
  if (GetNumBits x + 31) / 32 > buflen then Except.error VLONG_ERR_BUFFER_SMALL
  else GetBytes x 0 buflen

/-- The BASE64 alphabet `base64_enc` as ASCII codes (vlong.cpp:500). -/
def b64tab : List Nat :=
  [65, 66, 67, 68, 69, 70, 71, 72, 73, 74, 75, 76, 77, 78, 79, 80, 81, 82,
   83, 84, 85, 86, 87, 88, 89, 90,
   97, 98, 99, 100, 101, 102, 103, 104, 105, 106, 107, 108, 109, 110, 111,
   112, 113, 114, 115, 116, 117, 118, 119, 120, 121, 122,
   48, 49, 50, 51, 52, 53, 54, 55, 56, 57, 43, 47]

def b64enc (i : Nat) : Nat := getD b64tab i

/-- `POS` (vlong.cpp:502): alphabet index, `-1` for the padding byte `=`
    (61), `-2` for anything else. -/
def b64pos (c : Nat) : Int :=
  if 65 ≤ c ∧ c ≤ 90 then (c : Int) - 65
  else if 97 ≤ c ∧ c ≤ 122 then (c : Int) - 97 + 26
  else if 48 ≤ c ∧ c ≤ 57 then (c : Int) - 48 + 52
  else if c = 43 then 62
  else if c = 47 then 63
  else if c = 61 then -1
  else -2

/-- Encoder loop of `ToBase64Buf` (vlong.cpp:609-634): three input bytes
    per four output symbols; the `i > nNeedsBin` comparisons of the source
    place `=` exactly on the symbols of a short final group.  The masked
    shifts `(c & 0x00fc0000) >> 18` etc. are the base-64 digits of `c`. -/
def b64encLoop : List Nat → List Nat
  | [] => []
  | [b0] =>
    [b64enc (b0 * 65536 / 262144 % 64), b64enc (b0 * 65536 / 4096 % 64), 61, 61]
  | [b0, b1] =>
    [b64enc ((b0 * 65536 + b1 * 256) / 262144 % 64),
     b64enc ((b0 * 65536 + b1 * 256) / 4096 % 64),
     b64enc ((b0 * 65536 + b1 * 256) / 64 % 64), 61]
  | b0 :: b1 :: b2 :: rest =>
    b64enc ((b0 * 65536 + b1 * 256 + b2) / 262144 % 64) ::
      b64enc ((b0 * 65536 + b1 * 256 + b2) / 4096 % 64) ::
      b64enc ((b0 * 65536 + b1 * 256 + b2) / 64 % 64) ::
      b64enc ((b0 * 65536 + b1 * 256 + b2) % 64) :: b64encLoop rest

/-- `vlong::ToBase64Buf` (vlong.cpp:577): one sign byte (0 for `+`, 1 for
    `-`) followed by the big-endian magnitude, BASE64-encoded. -/
def ToBase64Buf (x : vstate) : Except Int (List Nat) :=
  match ToBinary x ((GetNumBits x + 7) / 8 + 1 - 1) with
  | Except.error e => Except.error e
  | Except.ok bytes => Except.ok (b64encLoop ((if x.s = 1 then 0 else 1) :: bytes))

/-- Decoder loop of `FromBase64` (vlong.cpp:545-559): four symbols per
    group, three output bytes per group; `=` is only detected at the third
    and fourth symbol (`POS = -1`), the pair `(n2, n3)` of the LAST group
    is reported so the caller can shorten `dlen`.  Bytes whose symbol was
    `=` are never written by the C code (the scratch buffer cell stays
    unspecified) but are also never read; they are 0 here.  A symbol
    outside the alphabet gives `POS = -2`, which the source does NOT
    reject - the group decodes to garbage; the `% 256` (`Int.emod`) mirrors the
    store into `unsigned char`. -/
def b64decLoop : List Nat → Option (List Nat × Int × Int)
  | [] => some ([], -1, -1)
  | c0 :: c1 :: c2 :: c3 :: rest =>
    if b64pos c0 = -1 ∨ b64pos c1 = -1 then none
    else if b64pos c2 = -1 ∧ b64pos c3 ≠ -1 then none
    else
      match rest with
      | [] =>
        some ([((b64pos c0 * 4 + b64pos c1 / 16) % 256).toNat,
               if b64pos c2 ≠ -1 then
                 ((b64pos c1 % 16 * 16 + b64pos c2 / 4) % 256).toNat else 0,
               if b64pos c3 ≠ -1 then
                 ((b64pos c2 % 4 * 64 + b64pos c3) % 256).toNat else 0],
              b64pos c2, b64pos c3)
      | _ =>
        match b64decLoop rest with
        | none => none
        | some p =>
          some (((b64pos c0 * 4 + b64pos c1 / 16) % 256).toNat ::
                (if b64pos c2 ≠ -1 then
                  ((b64pos c1 % 16 * 16 + b64pos c2 / 4) % 256).toNat else 0) ::
                (if b64pos c3 ≠ -1 then
                  ((b64pos c2 % 4 * 64 + b64pos c3) % 256).toNat else 0) :: p.1,
                p.2)
  | _ => none

/-- `vlong::FromBase64` (vlong.cpp:515) for the given receiver: decode
    into the scratch buffer, then `FromBinary` of the bytes after the sign
    byte, then the sign from the sign byte, then `Clamp`. -/
def FromBase64 (x : vstate) (str : List Nat) : Int × vstate :=
  if str = [] then (VLONG_SUCCESS, zeroS)
  else if str.length % 4 ≠ 0 then (VLONG_ERR_BAD_ARG_1, x)
  else match b64decLoop str with
    | none => (VLONG_ERR_INVALID_CHAR, x)
    | some (bs, n2, n3) =>
      match FromBinary x
          ((bs.take
              (bs.length - (if n2 = -1 then 1 else 0) - (if n3 = -1 then 1 else 0))).drop 1)
          (bs.length - (if n2 = -1 then 1 else 0) - (if n3 = -1 then 1 else 0) - 1) with
      | (e, y) =>
        if e ≠ VLONG_SUCCESS then (e, y)
        else (VLONG_SUCCESS, Clamp { y with s := if getD bs 0 = 0 then 1 else -1 })

/-- Helper tying the two directions together: encode with `ToBase64Buf`,
    decode into a fresh object with `FromBase64`. -/
def roundTrip (x : vstate) : Int × vstate :=
  match ToBase64Buf x with
  | Except.error e => (e, zeroS)
  | Except.ok str => FromBase64 zeroS str

/-- Value contributed by a big-endian byte list whose LAST byte lands at
    byte position `start`: the head lands highest.  This is the abstract
    meaning of the store loop of `SetBytes`. -/
def bsum (start : Nat) : List Nat → Nat
  | [] => 0
  | b :: bs => b * 2 ^ (8 * (start + bs.length)) + bsum start bs

/-- `2 ^ 8192`: a 257-digit number whose magnitude needs 1025 bytes. -/
def x8192 : vstate := { s := 1, d := List.replicate 256 0 ++ [1] }

/-- Hex digit decode of `FromStringBuf` when the canonical alphabet is in
    use (vlong.cpp:412-416): `0-9`, `A-F`, `a-f`, else `-1`. -/
def hexDigVal (c : Nat) : Int :=
  if 48 ≤ c ∧ c ≤ 57 then (c : Int) - 48
  else if 65 ≤ c ∧ c ≤ 70 then (c : Int) - 55
  else if 97 ≤ c ∧ c ≤ 102 then (c : Int) - 87
  else -1

/-- `strchr` over a custom alphabet: position of the first occurrence. -/
def strchrPos (c : Nat) : List Nat → Option Nat
  | [] => none
  | a :: as2 => if a = c then some 0 else (strchrPos c as2).map (fun p => p + 1)

/-- The radix-16 fast path of `FromStringBuf` (vlong.cpp:397-429), walking
    the characters from the last to the first; `j` counts processed
    characters, each one a nibble at `d[j/8]`, bits `4*(j%8)`.  A `-`
    anywhere sets the sign and stops the scan (the source `break`).
    Returns (status, sign, digit buffer, nu). -/
def fsbHexLoop (std : Bool) (alph : List Nat) :
    List Nat → Nat → List Nat → Nat → Int × Int × List Nat × Nat
  | [], _, buf, nu => (VLONG_SUCCESS, 1, buf, nu)
  | c :: rest, j, buf, nu =>
    if c = 45 then (VLONG_SUCCESS, -1, buf, nu)
    else
      let dig : Int :=
        if std then hexDigVal c
        else match strchrPos c alph with
          | none => -1
          | some p => (p : Int)
      if dig < 0 then (VLONG_ERR_INVALID_CHAR, 1, buf, nu)
      else
        fsbHexLoop std alph rest (j + 1)
          (buf.set (j / 8) (getD buf (j / 8) + dig.toNat * 16 ^ (j % 8)))
          (if dig.toNat ≠ 0 then j / 8 + 1 else nu)

/-- The generic-radix path of `FromStringBuf` (vlong.cpp:432-460):
    accumulate left to right with `Mul` by the radix and `Add`/`Sub` of the
    digit.  The source ignores the status of those three calls; since they
    can only fail in `Grow`, before mutating, the state is kept on error. -/
def fsbGenLoop (std : Bool) (alph : List Nat) (rd : Nat) :
    List Nat → Nat → vstate → Int × vstate
  | [], _, st => (VLONG_SUCCESS, st)
  | c :: rest, i, st =>
    if i = 0 ∧ c = 45 then fsbGenLoop std alph rd rest (i + 1) { st with s := -1 }
    else
      let dig : Int :=
        if std ∧ rd ≤ 16 then
          (let d0 := hexDigVal c
           if d0 < 0 ∨ rd ≤ d0.toNat then -1 else d0)
        else match strchrPos c alph with
          | none => -1
          | some p => (p : Int)
      if dig < 0 then (VLONG_ERR_INVALID_CHAR, st)
      else
        let st1 := match MulS st (rd : Int) with
          | Except.ok y => y
          | Except.error _ => st
        let st2 :=
          if st1.s = 1 then
            match AddS st1 dig with | Except.ok y => y | Except.error _ => st1
          else
            match SubS st1 dig with | Except.ok y => y | Except.error _ => st1
        fsbGenLoop std alph rd rest (i + 1) st2

/-- `vlong::FromStringBuf` (vlong.cpp:354).  The receiver is reset
    (`nu = 0; s = MP_ZPOS; Grow(...)`) BEFORE any character is examined,
    so any error after the radix check leaves it mutated. -/
def FromStringBuf (recv : vstate) (buf : List Nat) (nRadix : Nat)
    (custom : Option (List Nat)) : Int × vstate :=
  let std := custom.isNone
  let rd := match custom with
    | none => nRadix
    | some alph => if nRadix = 0 then alph.length else nRadix
  let alph := match custom with
    | none => []
    | some alph => alph
  if std ∧ (rd < 2 ∨ rd > 16) then (VLONG_ERR_BAD_ARG_3, recv)
  else if ¬ std ∧ (rd < 2 ∨ rd > 256) then (VLONG_ERR_BAD_ARG_3, recv)
  else
    let len := buf.length
    let bb := 8 - ((if rd < 256 then 1 else 0) + (if rd < 128 then 1 else 0) +
      (if rd < 64 then 1 else 0) + (if rd < 32 then 1 else 0) +
      (if rd < 16 then 1 else 0) + (if rd < 8 then 1 else 0) +
      (if rd < 4 then 1 else 0))
    let nNeeds := (bb * len + 31) / 32
    match growOk (nNeeds + 1) with
    | Except.error e => (e, zeroS)
    | Except.ok _ =>
      if rd = 16 then
        match fsbHexLoop std alph buf.reverse 0 (List.replicate (nNeeds + 1) 0) 0 with
        | (st, sg, bf, nu) =>
          if st ≠ VLONG_SUCCESS then (st, { s := 1, d := bf.take nu })
          else if nu = 0 then (VLONG_SUCCESS, zeroS)
          else (VLONG_SUCCESS, { s := sg, d := bf.take nu })
      else
        fsbGenLoop std alph rd buf 0 zeroS

/-- `vlong::FromString` (vlong.cpp:345). -/
def FromString (recv : vstate) (buf : List Nat) (radix : Nat) : Int × vstate :=
  if radix < 2 ∨ radix > 16 then (VLONG_ERR_BAD_ARG_2, recv)
  else FromStringBuf recv buf radix none

/-- `vlong::prv2Expt` (vlong.cpp:2512): zero, grow, one bit. -/
def prv2Expt (b : Nat) : Except Int vstate :=
  match growOk (b / 32 + 1) with
  | Except.error e => Except.error e
  | Except.ok _ => Except.ok { s := 1, d := List.replicate (b / 32) 0 ++ [2 ^ (b % 32)] }

/-- `vlong::prvReduceBarrettSetup` (vlong.cpp:2533): `mu = B^(2k) / n`. -/
def prvReduceBarrettSetup (f : Nat) (n : vstate) : Except Int vstate := do
  let e ← prv2Expt (n.d.length * 2 * 32)
  let p ← prvDivBig f e n
  pure p.1

/-- The final `while (x > n) x -= n` of `prvReduceBarrett`. -/
def barrettTrim (n : vstate) : Nat → vstate → Except Int vstate
  | 0, _ => Except.error FUEL_OUT
  | fu + 1, x =>
    if CompareL x n = 1 then do
      let x2 ← SubL x n
      barrettTrim n fu x2
    else Except.ok x

/-- `vlong::prvReduceBarrett` (vlong.cpp:2574), HAC 14.42. -/
def prvReduceBarrett (f : Nat) (x n mu : vstate) : Except Int vstate := do
  let um := n.d.length
  let q0 := prvRightShiftDigits x (um - 1)
  let q1 ← MulL f q0 mu 0
  let q2 := prvRightShiftDigits q1 (um + 1)
  let x1 := prvMod2d x (32 * (um + 1) : Int)
  let q3 ← MulL f q2 n (um + 1)
  let x2 ← SubL x1 q3
  let x3 ←
    if x2.s = -1 ∧ x2.d ≠ [] then do
      let c ← prvLeftShiftDigits (SetValue 1) (um + 1)
      AddL x2 c
    else pure x2
  barrettTrim n f x3

/-- `vlong::prvIsDrModulus` (vlong.cpp:2753): any single-digit modulus
    counts; otherwise at least `nu/2` digits must be all-ones. -/
def prvIsDrModulus (x : vstate) : Bool :=
  if x.d = [] then false
  else if x.d.length = 1 then true
  else x.d.countP (fun u => u = uB - 1) ≥ x.d.length / 2

/-- `vlong::prvReduceDRSetup` (vlong.cpp:2773): `mu = 2^p - n`. -/
def prvReduceDRSetup (n : vstate) : Except Int vstate := do
  let t ← prv2Expt (GetNumBits n)
  SubL t n

/-- `vlong::prvReduceDR` (vlong.cpp:2789): repeat
    `x = (x mod 2^p) + (x >> p) * mu`, subtracting `n` once whenever
    `x > n`, until no subtraction happens. -/
def prvReduceDR : Nat → vstate → vstate → vstate → Except Int vstate
  | 0, _, _, _ => Except.error FUEL_OUT
  | fu + 1, x, n, mu => do
    let p := GetNumBits n
    let q0 := shiftRightN x p
    let x1 := prvModPow2 x p
    let q1 ← MulL fu q0 mu 0
    let _ ← growOk (max x1.d.length q1.d.length + 1)
    let x2 : vstate := { s := x1.s, d := addMag x1.d q1.d 0 }
    if cmpMag x2 n = 1 then do
      let x3 ← SubL x2 n
      prvReduceDR fu x3 n mu
    else pure x2

/-- One Newton step `x *= 2 - b * x` of the Montgomery setup, on 32-bit
    digits (all operations wrap modulo `2^32`). -/
def mgStep (b x : Nat) : Nat := x * ((2 + uB - b * x % uB) % uB) % uB

/-- `vlong::prvReduceMontgomerySetup` (vlong.cpp:2627):
    `rho = -n[0]^(-1) mod 2^32`; fails on an even `n[0]`. -/
def prvReduceMontgomerySetup (n : vstate) : Except Int Nat :=
  let b := getD n.d 0
  if b % 2 = 0 then Except.error VLONG_ERR_BAD_ARG_1
  else
    let x1 := (Nat.land (b + 2) 4 * 2 + b) % uB
    Except.ok ((uB - mgStep b (mgStep b (mgStep b x1))) % uB)

/-- Inner multiply-accumulate sweep of `prvReduceMontgomery`
    (vlong.cpp:2712-2733): add `mu * n` into the tail of `x` starting at
    the current digit, then let the carry ripple (`addCarry`). -/
def macList (mu : Nat) : List Nat → List Nat → Nat → List Nat
  | xs, [], u => addCarry xs u
  | xs, nd :: nds, u =>
    (mu * nd + u + getD xs 0) % uB :: macList mu xs.tail nds ((mu * nd + u + getD xs 0) / uB)

/-- One outer iteration of `prvReduceMontgomery`: `mu = x[i] * rho mod B`,
    then the multiply-accumulate at offset `i`. -/
def redcStep (rho : Nat) (nd : List Nat) (xs : List Nat) (i : Nat) : List Nat :=
  List.take i xs ++ macList (getD xs i * rho % uB) (List.drop i xs) nd 0

/-- The outer loop `for (i=0; i<n.nu; i++)` of `prvReduceMontgomery`. -/
def redcIter (rho : Nat) (nd : List Nat) : Nat → Nat → List Nat → List Nat
  | 0, _, xs => xs
  | cnt + 1, i, xs => redcIter rho nd cnt (i + 1) (redcStep rho nd xs i)

/-- `vlong::prvReduceMontgomery` (vlong.cpp:2681): grow `x` to `2*k+1`
    digits, eliminate the low `k` digits, shift them away, subtract `n`
    once if the result still exceeds it.  This computes
    `x * (2^32)^(-k) mod n`, not `x mod n`. -/
def prvReduceMontgomery (x n : vstate) (rho : Nat) : Except Int vstate :=
  let digs := n.d.length * 2 + 1
  match growOk digs with
  | Except.error e => Except.error e
  | Except.ok _ =>
    let xs := redcIter rho n.d n.d.length 0 (extendTo x.d digs)
    let x2 := prvRightShiftDigits (Clamp { x with d := xs }) n.d.length
    if cmpMag x2 n = 1 then Except.ok (Clamp { s := x2.s, d := subMagD x2.d n.d })
    else Except.ok x2

/-- The doubling loop of `prvMontgomeryNorm` (vlong.cpp:2669-2676). -/
def montNormLoop (b : vstate) : Nat → vstate → Except Int vstate
  | 0, a => Except.ok a
  | k + 1, a => do
    let a2 ← prvMulDig a 2
    let a3 ←
      if cmpMag a2 b = 1 then SubL a2 b
      else pure a2
    montNormLoop b k a3

/-- `vlong::prvMontgomeryNorm` (vlong.cpp:2650): compute
    `R = (2^32)^(b.nu) mod b` by seeding a power of two and doubling with
    conditional subtraction.  `bits` can be zero, in which case the C
    `int` arithmetic starts the loop at `i = -1`; the counts are computed
    with integers accordingly. -/
def prvMontgomeryNorm (b : vstate) : Except Int vstate :=
  let bits : Int := (GetNumBits b % 32 : Nat)
  if b.d.length > 1 then do
    let a0 ← prv2Expt ((((b.d.length : Int) - 1) * 32 + bits - 1).toNat)
    montNormLoop b (32 - (bits - 1)).toNat a0
  else montNormLoop b 32 (SetValue 1)

/-- `vlong::ModBarrett` (vlong.cpp:2286). -/
def ModBarrett (f : Nat) (a b : vstate) : Except Int vstate := do
  let mu ← prvReduceBarrettSetup f b
  prvReduceBarrett f a b mu

/-- `vlong::ModMontgomery` (vlong.cpp:2298): setup plus ONE raw Montgomery
    reduction of `a`. -/
def ModMontgomery (a b : vstate) : Except Int vstate := do
  let rho ← prvReduceMontgomerySetup b
  prvReduceMontgomery a b rho

/-- `vlong::ModDRExt` (vlong.cpp:2310). -/
def ModDRExt (f : Nat) (a b : vstate) : Except Int vstate := do
  let mu ← prvReduceDRSetup b
  prvReduceDR f a b mu

/-- The window-width table shared by both exponentiation drivers
    (vlong.cpp:2841-2848 and 3009-3016). -/
def windowSize (x : Nat) : Nat :=
  if x ≤ 7 then 2
  else if x ≤ 36 then 3
  else if x ≤ 140 then 4
  else if x ≤ 450 then 5
  else if x ≤ 1303 then 6
  else if x ≤ 3529 then 7
  else 8

/-- The 32 bits of one exponent digit, most significant first (the
    `buf <<= 1; y = buf >> 31` scan). -/
def digBits (dg : Nat) : List Nat :=
  (List.range 32).map (fun k => dg / 2 ^ (31 - k) % 2)

/-- All scanned exponent bits: digits from the most significant down,
    32 bits each (the `digidx` walk of the drivers). -/
def bitsOfExp (ed : List Nat) : List Nat := (ed.reverse.map digBits).flatten

/-- `k` rounds of square-and-reduce (used for the table top entry, for a
    filled window, and by `montNormLoop`-like repetition). -/
def iterateSq (f : Nat) (redux : vstate → Except Int vstate) :
    Nat → vstate → Except Int vstate
  | 0, v => Except.ok v
  | k + 1, v => do
    let v2 ← MulL f v v 0
    let v3 ← redux v2
    iterateSq f redux k v3

/-- Filling the upper half of the window table:
    `M[idx] = M[idx-1] * M[1] mod n` for `cnt` successive indices. -/
def buildUpper (f : Nat) (redux : vstate → Except Int vstate) (m1 : vstate) :
    Nat → Nat → List vstate → Except Int (List vstate)
  | 0, _, tbl => Except.ok tbl
  | cnt + 1, idx, tbl => do
    let v ← MulL f (tbl.getD (idx - 1) zeroS) m1 0
    let v2 ← redux v
    buildUpper f redux m1 cnt (idx + 1) (tbl.set idx v2)

/-- The trailing-window drain (vlong.cpp:2970-2987): square `cnt` times,
    multiplying by `M[1]` whenever the shifted window exposes a one bit at
    position `winsize`. -/
def drainLoop (f : Nat) (redux : vstate → Except Int vstate) (m1 : vstate)
    (winsize : Nat) : Nat → Nat → vstate → Except Int vstate
  | 0, _, res => Except.ok res
  | cnt + 1, bitbuf, res => do
    let r2 ← MulL f res res 0
    let r3 ← redux r2
    let bitbuf2 := bitbuf * 2
    if bitbuf2 / 2 ^ winsize % 2 = 1 then do
      let r4 ← MulL f m1 r3 0
      let r5 ← redux r4
      drainLoop f redux m1 winsize cnt bitbuf2 r5
    else drainLoop f redux m1 winsize cnt bitbuf2 r3

/-- The three-mode sliding-window bit scan shared by both drivers
    (vlong.cpp:2913-2987): skip leading zeros (mode 0), square on zero
    bits between windows (mode 1), accumulate up to `winsize` bits into an
    open window (mode 2), then square `winsize` times and multiply by the
    table entry; a partial final window is drained bit by bit. -/
def scanBits (f : Nat) (redux : vstate → Except Int vstate) (tbl : List vstate)
    (winsize : Nat) : List Nat → Nat → Nat → Nat → vstate → Except Int vstate
  | [], mode, bitbuf, bitcpy, res =>
    if mode = 2 ∧ bitcpy > 0 then
      drainLoop f redux (tbl.getD 1 zeroS) winsize bitcpy bitbuf res
    else Except.ok res
  | y :: rest, mode, bitbuf, bitcpy, res =>
    if mode = 0 ∧ y = 0 then scanBits f redux tbl winsize rest 0 bitbuf bitcpy res
    else if mode = 1 ∧ y = 0 then do
      let r2 ← MulL f res res 0
      let r3 ← redux r2
      scanBits f redux tbl winsize rest 1 bitbuf bitcpy r3
    else
      let bitcpy2 := bitcpy + 1
      let bitbuf2 := bitbuf + y * 2 ^ (winsize - bitcpy2)
      if bitcpy2 = winsize then do
        let r2 ← iterateSq f redux winsize res
        let r3 ← MulL f (tbl.getD bitbuf2 zeroS) r2 0
        let r4 ← redux r3
        scanBits f redux tbl winsize rest 1 0 0 r4
      else scanBits f redux tbl winsize rest 2 bitbuf2 bitcpy2 res

/-- `vlong::prvPowModBarrett` (vlong.cpp:2828): the sliding-window driver
    over either Barrett reduction (`redmode = 0`) or extended DR reduction
    (`redmode = 1`); any other mode is `VLONG_ERR_BAD_ARG_4`. -/
def prvPowModBarrett (f : Nat) (a e n : vstate) (redmode : Nat) : Except Int vstate := do
  let winsize := windowSize (GetNumBits e)
  let mu ←
    if redmode = 0 then prvReduceBarrettSetup f n
    else if redmode = 1 then prvReduceDRSetup n
    else Except.error VLONG_ERR_BAD_ARG_4
  let redux := fun (v : vstate) =>
    if redmode = 0 then prvReduceBarrett f v n mu else prvReduceDR f v n mu
  let m1 ← ModL f a n
  let mtop ← iterateSq f redux (winsize - 1) m1
  let tbl0 := ((List.replicate (2 ^ winsize) zeroS).set 1 m1).set (2 ^ (winsize - 1)) mtop
  let tbl ← buildUpper f redux m1 (2 ^ (winsize - 1) - 1) (2 ^ (winsize - 1) + 1) tbl0
  scanBits f redux tbl winsize (bitsOfExp e.d) 0 0 0 (SetValue 1)

/-- `vlong::prvPowModMontgomery` (vlong.cpp:3001): the same driver over
    Montgomery reduction, with the normalization `R mod n` as the running
    start value, `M[1] = a * R mod n`, and one final reduction to leave
    Montgomery form. -/
def prvPowModMontgomery (f : Nat) (a e n : vstate) : Except Int vstate := do
  let winsize := windowSize (GetNumBits e)
  let rho ← prvReduceMontgomerySetup n
  let res0 ← prvMontgomeryNorm n
  let redux := fun (v : vstate) => prvReduceMontgomery v n rho
  let m1 ← MulMod f a res0 n
  let mtop ← iterateSq f redux (winsize - 1) m1
  let tbl0 := ((List.replicate (2 ^ winsize) zeroS).set 1 m1).set (2 ^ (winsize - 1)) mtop
  let tbl ← buildUpper f redux m1 (2 ^ (winsize - 1) - 1) (2 ^ (winsize - 1) + 1) tbl0
  let res ← scanBits f redux tbl winsize (bitsOfExp e.d) 0 0 0 res0
  prvReduceMontgomery res n rho

/-- The initial strip-common-twos loop of `GCDExtBin` (vlong.cpp:3503-3508). -/
def gcdStrip : Nat → vstate → vstate → Nat → Except Int (vstate × vstate × Nat)
  | 0, _, _, _ => Except.error FUEL_OUT
  | fu + 1, ta, tb, tg =>
    if getD ta.d 0 % 2 = 0 ∧ getD tb.d 0 % 2 = 0 then
      gcdStrip fu (shiftRightN ta 1) (shiftRightN tb 1) (tg + 1)
    else Except.ok (ta, tb, tg)

/-- One halving loop of `GCDExtBin` (vlong.cpp:3520-3532 and its mirror):
    while the running value is even, halve it, first adjusting the
    cofactors by `tb` and `ta` when they are odd. -/
def gcdHalve (ta tb : vstate) : Nat → vstate → vstate → vstate →
    Except Int (vstate × vstate × vstate)
  | 0, _, _, _ => Except.error FUEL_OUT
  | fu + 1, tu, u1, u2 =>
    if getD tu.d 0 % 2 = 0 then do
      let tu2 := shiftRightN tu 1
      let p ←
        if getD u1.d 0 % 2 ≠ 0 ∨ getD u2.d 0 % 2 ≠ 0 then do
          let u1b ← AddL u1 tb
          let u2b ← SubL u2 ta
          pure (u1b, u2b)
        else pure (u1, u2)
      gcdHalve ta tb fu tu2 (shiftRightN p.1 1) (shiftRightN p.2 1)
    else Except.ok (tu, u1, u2)

/-- The main do-while of `GCDExtBin` (vlong.cpp:3518-3561). -/
def gcdMain (ta tb : vstate) : Nat → vstate → vstate → vstate → vstate → vstate →
    vstate → Except Int (vstate × vstate × vstate)
  | 0, _, _, _, _, _, _ => Except.error FUEL_OUT
  | fu + 1, tu, u1, u2, tv, v1, v2 => do
    let pu ← gcdHalve ta tb fu tu u1 u2
    let pv ← gcdHalve ta tb fu tv v1 v2
    if cmpMag pu.1 pv.1 ≠ -1 then do
      let tu3 ← SubL pu.1 pv.1
      let u13 ← SubL pu.2.1 pv.2.1
      let u23 ← SubL pu.2.2 pv.2.2
      if tu3.d = [] then Except.ok (pv.1, pv.2.1, pv.2.2)
      else gcdMain ta tb fu tu3 u13 u23 pv.1 pv.2.1 pv.2.2
    else do
      let tv3 ← SubL pv.1 pu.1
      let v13 ← SubL pv.2.1 pu.2.1
      let v23 ← SubL pv.2.2 pu.2.2
      if pu.1.d = [] then Except.ok (tv3, v13, v23)
      else gcdMain ta tb fu pu.1 pu.2.1 pu.2.2 tv3 v13 v23

/-- `vlong::GCDExtBin` (vlong.cpp:3486): returns `(gcd, Y1, Y2)` with
    `Y1*a + Y2*b = gcd`; if either input is zero the result is
    `(0, 1, 0)`. -/
def GCDExtBin (f : Nat) (a b : vstate) : Except Int (vstate × vstate × vstate) :=
  if a.d = [] ∨ b.d = [] then Except.ok (zeroS, SetValue 1, SetValue 0)
  else do
    let st ← gcdStrip f a b 0
    let r ← gcdMain st.1 st.2.1 f st.1 (SetValue 1) (SetValue 0) st.2.1
      (SetValue 0) (SetValue 1)
    let g ← if st.2.2 > 0 then shiftLeftN r.1 st.2.2 else pure r.1
    Except.ok (g, r.2.1, r.2.2)

/-- `vlong::InvMod` (vlong.cpp:2488): binary extended gcd, succeed exactly
    when the gcd is one (the cofactor is returned as found, possibly
    negative or out of range). -/
def InvMod (f : Nat) (a n : vstate) : Except Int vstate :=
  if a.s = -1 ∨ n.s = -1 then Except.error VLONG_ERR_NEGATIVE_ARG
  else match GCDExtBin f a n with
    | Except.error e => Except.error e
    | Except.ok (g, y1, _) =>
      if g.d.length = 1 ∧ getD g.d 0 = 1 then Except.ok y1
      else Except.error VLONG_ERR_NO_INVERSE

/-- `vlong::PowMod` (vlong.cpp:3156).  The dispatch: negative modulus is
    an error; a NEGATIVE exponent computes `InvMod(a, n)` into a temporary
    and `|e|` into another, but then recurses with the ORIGINAL `a, e, n`,
    so it never terminates (the fuel runs out); otherwise a DR-shaped
    modulus selects the DR driver, and the parity OF THE BASE `a.d[0]`
    (not of the modulus) selects Montgomery over Barrett. -/
def PowMod : Nat → vstate → vstate → vstate → Except Int vstate
  | 0, _, _, _ => Except.error FUEL_OUT
  | f + 1, a, e, n =>
    if n.s = -1 then Except.error VLONG_ERR_NEGATIVE_ARG
    else if e.s = -1 then
      match InvMod f a n with
      | Except.error e2 => Except.error e2
      | Except.ok _ => PowMod f a e n
    else if prvIsDrModulus n then prvPowModBarrett f a e n 1
    else if getD a.d 0 % 2 = 1 then prvPowModMontgomery f a e n
    else prvPowModBarrett f a e n 0

/-- Truth of an `Except` being a success. -/
def isOkE (r : Except Int vstate) : Bool :=
  match r with
  | Except.ok _ => true
  | Except.error _ => false

/-! Supporting lemmas. -/

theorem getD_set_self (l : List Nat) (i : Nat) (v : Nat) (h : i < l.length) :
    getD (l.set i v) i = v := by
  induction l generalizing i with
  | nil => simp at h
  | cons x xs ih =>
    cases i with
    | zero => rfl
    | succ j =>
      simp only [List.set]
      have := ih j (by simpa using h)
      simpa [getD] using this

theorem writeBit_read (v pos : Nat) : writeBit v pos 1 / 2 ^ pos % 2 = 1 := by
  unfold writeBit
  rw [if_neg (by norm_num)]
  have hp : 0 < 2 ^ pos := Nat.pos_pow_of_pos pos (by norm_num)
  rcases Nat.mod_two_eq_zero_or_one (v / 2 ^ pos) with h | h
  · rw [h, Nat.zero_mul, Nat.sub_zero, Nat.add_div_right _ hp, Nat.add_mod, h]
  · have hle : 2 ^ pos ≤ v := by
      have h1 : 1 ≤ v / 2 ^ pos := by
        rcases Nat.eq_zero_or_pos (v / 2 ^ pos) with h0 | h0
        · rw [h0] at h; exact absurd h (by decide)
        · exact h0
      calc 2 ^ pos = 1 * 2 ^ pos := (Nat.one_mul _).symm
        _ ≤ v / 2 ^ pos * 2 ^ pos := Nat.mul_le_mul_right _ h1
        _ ≤ v := Nat.div_mul_le_self v _
    rw [h, Nat.one_mul, Nat.sub_add_cancel hle, h]

theorem clampD_getLast (l : List Nat) : (clampD l).getLast? ≠ some 0 := by
  induction l with
  | nil => simp [clampD]
  | cons x xs ih =>
    simp only [clampD]
    cases h : clampD xs with
    | nil =>
      by_cases hx : x = 0
      · simp [hx]
      · simp [hx, List.getLast?]
    | cons y ys =>
      rw [h] at ih
      simpa [List.getLast?_cons_cons] using ih

/-! Claim C4. -/

/-- C4 counterexample: `Xor` of two distinct objects both holding 5
    produces `used = 1` with `digits[0] = 0`, violating the clamp
    invariant. -/
theorem C4_xor_breaks_clamp :
    XorOp false { s := 1, d := [5] } { s := 1, d := [5] } = Except.ok { s := 1, d := [0] } ∧
    ¬ clampInv { s := 1, d := [0] } := ⟨rfl, by decide⟩

/-- C4 (amended): `Clamp` establishes the invariant from any state - so
    every operation that ends in a clamp satisfies it - and the sign is
    reset to `+` on a zero magnitude; but `Xor` (and the random
    generators, which force `used` to the requested digit count) do not
    clamp, and can return `used > 0` with a zero top digit. -/
theorem C4_clamp_establishes_invariant (x : vstate) :
    clampInv (Clamp x) ∧ signInv (Clamp x) := by
  constructor
  · exact clampD_getLast x.d
  · intro h
    simp only [Clamp] at h ⊢
    simp [h]

/-! Claim C10. -/

/-- C10: for every strictly positive (nonzero magnitude, positive sign)
    vlong `a` and every machine-signed digit `v ≤ 0`, `Compare(sdig_t)`
    returns `-1`, i.e. reports `a < v`; hence `operator>` with a
    non-positive scalar (for example `a > 0`) is false. -/
theorem C10_compare_positive_nonpositive (a : vstate) (v : Int)
    (hpos : a.s = 1) (hnz : a.d ≠ []) (hv : v ≤ 0) :
    CompareS a v = -1 ∧ opGt a v = false := by
  have h1 : CompareS a v = -1 := by
    unfold CompareS
    rw [if_neg hnz, if_neg (by rw [hpos]; rintro ⟨h, _⟩; exact absurd h (by decide)),
      if_pos ⟨hpos, hv⟩]
  exact ⟨h1, by simp [opGt, h1]⟩

theorem C10_compare_positive_nonpositive_witness :
    CompareS { s := 1, d := [5] } 0 = -1 ∧ opGt { s := 1, d := [5] } 0 = false :=
  C10_compare_positive_nonpositive { s := 1, d := [5] } 0 rfl (by decide) (by decide)

/-! Claim C9. -/

/-- C9 (amended): reading a bit at or beyond the stored digits returns the
    value `VLONG_ERR_OUT_OF_RANGE` (25), not 0; `SetBit(num, 1)` grows the
    number as needed - subject to the 1024-digit ceiling - so that the bit
    is stored and reads back as 1. -/
theorem C9_bit_access (x : vstate) (num : Nat) (hcap : num / 32 < 1024) :
    (x.d.length ≤ num / 32 → GetBit x num = VLONG_ERR_OUT_OF_RANGE) ∧
    ∃ y, SetBit x num 1 = Except.ok y ∧ GetBit y num = 1 := by
  constructor
  · intro h
    unfold GetBit
    rw [if_pos (by omega)]
  · by_cases h : num / 32 ≥ x.d.length
    case pos =>
      have hg : growOk (num / 32 + 1) = Except.ok () := by
        unfold growOk; rw [if_neg (by omega)]
      have hlen : (extendTo x.d (num / 32 + 1)).length = num / 32 + 1 := by
        unfold extendTo; simp; omega
      refine ⟨vstate.mk x.s ((extendTo x.d (num / 32 + 1)).set (num / 32)
          (writeBit (getD (extendTo x.d (num / 32 + 1)) (num / 32)) (num % 32) 1)),
        ?_, ?_⟩
      · unfold SetBit
        rw [if_pos h, if_pos (by decide), hg]
      · unfold GetBit
        simp only [List.length_set, hlen]
        rw [if_neg (by omega)]
        rw [getD_set_self _ _ _ (by omega)]
        rw [writeBit_read]
        simp
    case neg =>
      refine ⟨vstate.mk x.s (x.d.set (num / 32)
          (writeBit (getD x.d (num / 32)) (num % 32) 1)), ?_, ?_⟩
      · unfold SetBit
        rw [if_neg h]
      · unfold GetBit
        simp only [List.length_set]
        rw [if_neg (by omega)]
        rw [getD_set_self _ _ _ (by omega)]
        rw [writeBit_read]
        simp

theorem C9_bit_access_witness :
    ((zeroS.d.length ≤ 40 / 32 → GetBit zeroS 40 = VLONG_ERR_OUT_OF_RANGE) ∧
     ∃ y, SetBit zeroS 40 1 = Except.ok y ∧ GetBit y 40 = 1) ∧ 40 / 32 < 1024 :=
  ⟨C9_bit_access zeroS 40 (by decide), by decide⟩

/-- C9 counterexample: the claim says an out-of-range read returns 0, but
    `GetBit` of the value 1 at bit 32 returns 25 (`VLONG_ERR_OUT_OF_RANGE`). -/
theorem C9_getbit_returns_error_value :
    GetBit { s := 1, d := [1] } 32 = VLONG_ERR_OUT_OF_RANGE ∧
    VLONG_ERR_OUT_OF_RANGE ≠ (0 : Int) := ⟨rfl, by decide⟩

/-! Claim C2. -/

/-- C2: short `Mod` of the zero dividend by 3 returns SUCCESS with the
    value 3: `prvDivInt` sets the remainder to the divisor itself when the
    dividend is zero, so `a = q*b + r` fails (`0 ≠ 0*3 + 3`). -/
theorem C2_mod_zero_dividend :
    ModS zeroS zeroS 3 = (VLONG_SUCCESS, { s := 1, d := [3] }) ∧ (0 : Int) % 3 = 0 :=
  ⟨rfl, rfl⟩

/-! Claim C5. -/

/-- C5 counterexample: long `Mod` with a zero divisor returns
    `VLONG_SUCCESS` and sets the receiver to zero instead of failing with
    `VLONG_ERR_DIV_BY_ZERO`. -/
theorem C5_long_mod_zero_divisor_succeeds :
    ModL 1 { s := 1, d := [7] } zeroS = Except.ok zeroS ∧
    VLONG_SUCCESS ≠ VLONG_ERR_DIV_BY_ZERO := ⟨rfl, by decide⟩

/-- C5 (amended): short `Div` and `Mod` with digit 0 and long `Div` with a
    zero divisor fail with the distinct `VLONG_ERR_DIV_BY_ZERO` status,
    but long `Mod` with a zero divisor instead returns `VLONG_SUCCESS`
    with the receiver set to zero. -/
theorem C5_div_by_zero_statuses (f : Nat) (a recv : vstate) :
    DivS a 0 = Except.error VLONG_ERR_DIV_BY_ZERO ∧
    (ModS recv a 0).1 = VLONG_ERR_DIV_BY_ZERO ∧
    DivL f a zeroS = Except.error VLONG_ERR_DIV_BY_ZERO ∧
    ModL f a zeroS = Except.ok zeroS :=
  ⟨rfl, rfl, rfl, rfl⟩

/-! Claim C8. -/

/-- C8 counterexample: parsing the invalid string `"Z"` (radix 16) into a
    receiver holding 7 fails with `VLONG_ERR_INVALID_CHAR` but leaves the
    receiver zeroed, not holding its prior value. -/
theorem C8_parse_clobbers_receiver :
    FromStringBuf { s := 1, d := [7] } [90] 16 none = (VLONG_ERR_INVALID_CHAR, zeroS) ∧
    zeroS ≠ { s := 1, d := [7] } := ⟨rfl, by decide⟩

/-- C8 (amended): errors detected by the upfront argument validation (an
    out-of-range radix) leave the receiver untouched, but `FromStringBuf`
    resets the receiver before scanning, so an invalid character mid-parse
    leaves it mutated (zeroed or partially parsed), not holding its prior
    value. -/
theorem C8_error_atomicity (recv : vstate) (buf : List Nat) :
    FromStringBuf recv buf 17 none = (VLONG_ERR_BAD_ARG_3, recv) ∧
    FromStringBuf { s := 1, d := [9] } [90, 48] 16 none = (VLONG_ERR_INVALID_CHAR, zeroS) :=
  ⟨rfl, rfl⟩

/-! Claim C3. -/

/-- C3: `ModMontgomery(1, 7)` returns 2, not `1 mod 7 = 1`: the function
    applies one raw Montgomery reduction and therefore computes
    `a * (2^32)^(-k) mod b`, disagreeing with `Mod`, `ModBarrett` and
    `ModDRExt` on valid inputs (`0 ≤ 1 < 49`). -/
theorem C3_montgomery_not_plain_mod :
    ModMontgomery { s := 1, d := [1] } { s := 1, d := [7] } =
      Except.ok { s := 1, d := [2] } ∧
    (1 : Nat) % 7 = 1 ∧
    ModL 9 { s := 1, d := [1] } { s := 1, d := [7] } = Except.ok { s := 1, d := [1] } :=
  ⟨rfl, rfl, rfl⟩

/-! Claim C1. -/

/-- C1: `PowMod` does not choose the reduction engine from the modulus
    alone: with the odd base 3 and the even, non-DR modulus `2^33` it
    selects Montgomery (testing `a.d[0] & 1`, the base) and fails with
    `VLONG_ERR_BAD_ARG_1` from the Montgomery setup, although
    `3^1 mod 2^33 = 3` is perfectly computable (and Barrett would have
    been chosen had the parity of the modulus been tested). -/
theorem C1_powmod_selects_on_base_parity :
    PowMod 5 { s := 1, d := [3] } { s := 1, d := [1] } { s := 1, d := [0, 2] } =
      Except.error VLONG_ERR_BAD_ARG_1 ∧
    (3 : Nat) ^ 1 % 2 ^ 33 = 3 := ⟨rfl, by norm_num⟩

/-! Claim C6. -/

/-- C6: for a negative exponent `PowMod` computes the inverse into a
    temporary it never uses and recurses on the ORIGINAL operands, so no
    amount of fuel makes `PowMod(2, -1, 5)` return successfully - the C
    code recurses forever. -/
theorem C6_negative_exponent_never_returns (fu : Nat) :
    isOkE (PowMod fu { s := 1, d := [2] } { s := -1, d := [1] } { s := 1, d := [5] }) =
      false := by
  induction fu with
  | zero => rfl
  | succ k ih =>
    have hstep : PowMod (k + 1) { s := 1, d := [2] } { s := -1, d := [1] }
        { s := 1, d := [5] } =
        match InvMod k { s := 1, d := [2] } { s := 1, d := [5] } with
        | Except.error e2 => Except.error e2
        | Except.ok _ =>
          PowMod k { s := 1, d := [2] } { s := -1, d := [1] } { s := 1, d := [5] } := rfl
    rw [hstep]
    cases h : InvMod k { s := 1, d := [2] } { s := 1, d := [5] } with
    | error e2 => rfl
    | ok y => exact ih

/-! Support for the BASE64 round trip (claim C7). -/

theorem uB_eq : uB = 2 ^ 32 := by norm_num [uB]

theorem bitlenAux_lt (f : Nat) : ∀ n, n ≤ f → n < 2 ^ bitlenAux f n := by
  induction f with
  | zero => intro n h; interval_cases n; simp [bitlenAux]
  | succ k ih =>
    intro n h
    unfold bitlenAux
    by_cases hn : n = 0
    · simp [hn]
    · rw [if_neg hn]
      have h2 : n / 2 ≤ k := by omega
      have h3 := ih (n / 2) h2
      rw [pow_succ]
      omega

theorem bitlen_lt (n : Nat) : n < 2 ^ bitlen n := bitlenAux_lt n n (le_refl n)

theorem bitlenAux_le (f : Nat) : ∀ n k, n ≤ f → n < 2 ^ k → bitlenAux f n ≤ k := by
  induction f with
  | zero => intro n k h _; interval_cases n; simp [bitlenAux]
  | succ m ih =>
    intro n k h h2
    unfold bitlenAux
    by_cases hn : n = 0
    · simp [hn]
    · rw [if_neg hn]
      cases k with
      | zero => simp at h2; omega
      | succ k2 =>
        rw [pow_succ] at h2
        have h4 : n / 2 < 2 ^ k2 := by omega
        have := ih (n / 2) k2 (by omega) h4
        omega

theorem bitlen_le (n k : Nat) (h : n < 2 ^ k) : bitlen n ≤ k :=
  bitlenAux_le n n k (le_refl n) h

theorem getD_mem (l : List Nat) (i : Nat) (h : i < l.length) : getD l i ∈ l := by
  unfold getD
  rw [List.getD_eq_getElem l 0 h]
  exact List.getElem_mem h

theorem val_append (l1 l2 : List Nat) :
    val (l1 ++ l2) = val l1 + uB ^ l1.length * val l2 := by
  induction l1 with
  | nil => simp [val]
  | cons x xs ih =>
    show x + uB * val (xs ++ l2) = (x + uB * val xs) + uB ^ (xs.length + 1) * val l2
    rw [ih, pow_succ]
    ring

theorem val_lt (l : List Nat) (h : wfD l) : val l < uB ^ l.length := by
  induction l with
  | nil => simp [val]
  | cons x xs ih =>
    have h1 : x < uB := h x (List.mem_cons_self _ _)
    have h2 : val xs < uB ^ xs.length := ih (fun u hu => h u (List.mem_cons_of_mem _ hu))
    have h3 : uB * (val xs + 1) ≤ uB * uB ^ xs.length := Nat.mul_le_mul_left _ (by omega)
    calc val (x :: xs) = x + uB * val xs := rfl
      _ < uB * (val xs + 1) := by rw [Nat.mul_add, Nat.mul_one]; omega
      _ ≤ uB * uB ^ xs.length := h3
      _ = uB ^ (x :: xs).length := by rw [List.length_cons, pow_succ]; ring

theorem val_lt_bits (l : List Nat) (hw : wfD l) (hne : l ≠ []) :
    val l < 2 ^ (32 * (l.length - 1) + bitlen (getD l (l.length - 1))) := by
  have hdec := List.dropLast_append_getLast hne
  set top := l.getLast hne with htop
  have hidx : l.length - 1 < l.length := by
    cases hx : l
    · exact absurd hx hne
    · simp
  have hget : getD l (l.length - 1) = top := by
    unfold getD
    rw [List.getD_eq_getElem _ 0 hidx, htop, List.getLast_eq_getElem]
  rw [hget]
  have hval : val l = val l.dropLast + uB ^ (l.length - 1) * top := by
    conv_lhs => rw [← hdec]
    rw [val_append]
    simp [val, List.length_dropLast]
  have h1 : val l.dropLast < uB ^ (l.length - 1) := by
    have := val_lt l.dropLast (fun u hu => hw u (List.dropLast_subset _ hu))
    rwa [List.length_dropLast] at this
  have h2 : top < 2 ^ bitlen top := bitlen_lt top
  have h3 : uB ^ (l.length - 1) * (top + 1) ≤ uB ^ (l.length - 1) * 2 ^ bitlen top :=
    Nat.mul_le_mul_left _ (by omega)
  have hpow : uB ^ (l.length - 1) * 2 ^ bitlen top =
      2 ^ (32 * (l.length - 1) + bitlen top) := by
    rw [uB_eq, ← pow_mul, ← pow_add]
  rw [← hpow]
  calc val l = val l.dropLast + uB ^ (l.length - 1) * top := hval
    _ < uB ^ (l.length - 1) * (top + 1) := by rw [Nat.mul_add, Nat.mul_one]; omega
    _ ≤ _ := h3

theorem val_lt_numBits (x : vstate) (hw : wfD x.d) :
    val x.d < 2 ^ GetNumBits x := by
  unfold GetNumBits
  by_cases hd : x.d = []
  · rw [if_pos hd, hd]; simp [val]
  · rw [if_neg hd]; exact val_lt_bits x.d hw hd

theorem numBits_pos (x : vstate) (hc : clampInv x) (hne : x.d ≠ []) :
    0 < GetNumBits x := by
  unfold GetNumBits
  rw [if_neg hne]
  rcases Nat.eq_zero_or_pos (bitlen (getD x.d (x.d.length - 1))) with h | h
  · exfalso
    have hb := bitlen_lt (getD x.d (x.d.length - 1))
    rw [h, pow_zero] at hb
    have h0 : getD x.d (x.d.length - 1) = 0 := Nat.lt_one_iff.mp hb
    apply hc
    have hidx : x.d.length - 1 < x.d.length := by
      cases hx : x.d
      · exact absurd hx hne
      · simp
    rw [List.getLast?_eq_getElem?, List.getElem?_eq_getElem hidx]
    unfold getD at h0
    rw [List.getD_eq_getElem _ 0 hidx] at h0
    rw [h0]
  · omega

theorem numBits_le (x : vstate) (hw : wfD x.d) : GetNumBits x ≤ 32 * x.d.length := by
  unfold GetNumBits
  rcases hd : x.d with _ | ⟨y, ys⟩
  · simp
  · rw [if_neg (by simp)]
    have hmem : getD (y :: ys) ((y :: ys).length - 1) ∈ (y :: ys) :=
      getD_mem _ _ (by simp)
    have hlt : getD (y :: ys) ((y :: ys).length - 1) < uB := by
      rw [hd] at hw
      exact hw _ hmem
    have := bitlen_le (getD (y :: ys) ((y :: ys).length - 1)) 32 (by rw [← uB_eq]; exact hlt)
    have hL : 1 ≤ (y :: ys).length := Nat.succ_le_succ (Nat.zero_le _)
    omega

theorem numBits_zero_iff (x : vstate) (hc : clampInv x) : GetNumBits x = 0 ↔ x.d = [] := by
  unfold GetNumBits
  rcases hd : x.d with _ | ⟨y, ys⟩
  · simp
  · rw [if_neg (by simp)]
    constructor
    · intro h
      exfalso
      have htop : (y :: ys).getLast? ≠ some 0 := by
        unfold clampInv at hc
        rwa [hd] at hc
      have hidx : (y :: ys).length - 1 < (y :: ys).length :=
        Nat.sub_lt (Nat.succ_pos _) Nat.one_pos
      have hlast : (y :: ys).getLast? = some (getD (y :: ys) ((y :: ys).length - 1)) := by
        rw [List.getLast?_eq_getElem?, List.getElem?_eq_getElem hidx]
        unfold getD
        rw [List.getD_eq_getElem _ 0 hidx]
      have hne0 : getD (y :: ys) ((y :: ys).length - 1) ≠ 0 := by
        intro h0
        exact htop (by rw [hlast, h0])
      have hz : bitlen (getD (y :: ys) ((y :: ys).length - 1)) = 0 := by omega
      have hb := bitlen_lt (getD (y :: ys) ((y :: ys).length - 1))
      rw [hz, pow_zero] at hb
      exact hne0 (Nat.lt_one_iff.mp hb)
    · intro h; simp at h

theorem val_pos (l : List Nat) (hne : l ≠ []) (hc : l.getLast? ≠ some 0) : 0 < val l := by
  induction l with
  | nil => exact absurd rfl hne
  | cons x xs ih =>
    cases hx : xs with
    | nil =>
      subst hx
      have : x ≠ 0 := by
        intro h0
        exact hc (by rw [h0]; rfl)
      show 0 < x + uB * val []
      simp [val]
      omega
    | cons y ys =>
      subst hx
      have ht : 0 < val (y :: ys) := by
        refine ih (by simp) ?_
        rwa [List.getLast?_cons_cons] at hc
      have : 0 < uB * val (y :: ys) := Nat.mul_pos (by norm_num [uB]) ht
      show 0 < x + uB * val (y :: ys)
      omega

theorem getLast_tail (x : Nat) (xs : List Nat) (h : (x :: xs).getLast? ≠ some 0) :
    xs.getLast? ≠ some 0 := by
  cases xs with
  | nil => simp
  | cons y ys => rwa [List.getLast?_cons_cons] at h

theorem val_inj : ∀ l1 l2 : List Nat, wfD l1 → wfD l2 → l1.getLast? ≠ some 0 →
    l2.getLast? ≠ some 0 → val l1 = val l2 → l1 = l2 := by
  intro l1
  induction l1 with
  | nil =>
    intro l2 _ hw2 _ hc2 hv
    cases l2 with
    | nil => rfl
    | cons y ys =>
      exfalso
      have := val_pos (y :: ys) (by simp) hc2
      rw [← hv] at this
      simp [val] at this
  | cons x xs ih =>
    intro l2 hw1 hw2 hc1 hc2 hv
    cases l2 with
    | nil =>
      exfalso
      have := val_pos (x :: xs) (by simp) hc1
      rw [hv] at this
      simp [val] at this
    | cons y ys =>
      have hx : x < uB := hw1 x (List.mem_cons_self _ _)
      have hy : y < uB := hw2 y (List.mem_cons_self _ _)
      have hveq : x + uB * val xs = y + uB * val ys := hv
      have h1 : (x + uB * val xs) % uB = x := by
        rw [Nat.add_mul_mod_self_left, Nat.mod_eq_of_lt hx]
      have h2 : (y + uB * val ys) % uB = y := by
        rw [Nat.add_mul_mod_self_left, Nat.mod_eq_of_lt hy]
      have hxy : x = y := by rw [hveq, h2] at h1; exact h1.symm
      have hub : 0 < uB := by norm_num [uB]
      have h3 : (x + uB * val xs) / uB = val xs := by
        rw [Nat.add_mul_div_left _ _ hub, Nat.div_eq_of_lt hx, Nat.zero_add]
      have h4 : (y + uB * val ys) / uB = val ys := by
        rw [Nat.add_mul_div_left _ _ hub, Nat.div_eq_of_lt hy, Nat.zero_add]
      have hvv : val xs = val ys := by rw [hveq, h4] at h3; exact h3.symm
      have htl := ih ys (fun u hu => hw1 u (List.mem_cons_of_mem _ hu))
        (fun u hu => hw2 u (List.mem_cons_of_mem _ hu))
        (getLast_tail x xs hc1) (getLast_tail y ys hc2) hvv
      rw [hxy, htl]

theorem clampD_subset : ∀ l : List Nat, ∀ u ∈ clampD l, u ∈ l := by
  intro l
  induction l with
  | nil => intro u hu; simp [clampD] at hu
  | cons x xs ih =>
    intro u hu
    simp only [clampD] at hu
    cases h : clampD xs with
    | nil =>
      rw [h] at hu
      by_cases hx : x = 0
      · rw [if_pos hx] at hu; simp at hu
      · rw [if_neg hx] at hu
        simp at hu
        simp [hu]
    | cons y ys =>
      rw [h] at hu
      rcases List.mem_cons.mp hu with h1 | h1
      · simp [h1]
      · have : u ∈ clampD xs := by rw [h]; exact h1
        exact List.mem_cons_of_mem _ (ih u this)

theorem clampD_val : ∀ l : List Nat, val (clampD l) = val l := by
  intro l
  induction l with
  | nil => rfl
  | cons x xs ih =>
    simp only [clampD]
    cases h : clampD xs with
    | nil =>
      rw [h] at ih
      have hxs : val xs = 0 := by rw [← ih]; rfl
      by_cases hx : x = 0
      · rw [if_pos hx]
        show val [] = x + uB * val xs
        rw [hxs, hx]
        simp [val]
      · rw [if_neg hx]
        show x + uB * val [] = x + uB * val xs
        rw [hxs]
        simp [val]
    | cons y ys =>
      rw [h] at ih
      show x + uB * val (y :: ys) = x + uB * val xs
      rw [ih]

theorem getD_val : ∀ l : List Nat, wfD l → ∀ i, getD l i = val l / uB ^ i % uB := by
  intro l
  induction l with
  | nil => intro _ i; simp [getD, val]
  | cons x xs ih =>
    intro hw i
    have hx : x < uB := hw x (List.mem_cons_self _ _)
    have hub : 0 < uB := by norm_num [uB]
    cases i with
    | zero =>
      show x = (x + uB * val xs) / uB ^ 0 % uB
      rw [pow_zero, Nat.div_one, Nat.add_mul_mod_self_left, Nat.mod_eq_of_lt hx]
    | succ i2 =>
      show getD xs i2 = (x + uB * val xs) / uB ^ (i2 + 1) % uB
      rw [pow_succ, mul_comm (uB ^ i2) uB, ← Nat.div_div_eq_div_mul,
        Nat.add_mul_div_left _ _ hub, Nat.div_eq_of_lt hx, Nat.zero_add]
      exact ih (fun u hu => hw u (List.mem_cons_of_mem _ hu)) i2

theorem byteOf_val (l : List Nat) (hw : wfD l) (p : Nat) :
    byteOf l p = val l / 2 ^ (8 * p) % 256 := by
  have hr : p % 4 < 4 := Nat.mod_lt _ (by norm_num)
  have hsplit : (2 : Nat) ^ 32 = 2 ^ (8 * (p % 4)) * 2 ^ (32 - 8 * (p % 4)) := by
    rw [← pow_add]
    congr 1
    omega
  have hdvd : (256 : Nat) ∣ 2 ^ (32 - 8 * (p % 4)) := by
    have h8 : (256 : Nat) = 2 ^ 8 := by norm_num
    rw [h8]
    exact pow_dvd_pow 2 (by omega)
  have hexp : 32 * (p / 4) + 8 * (p % 4) = 8 * p := by omega
  unfold byteOf
  rw [getD_val l hw, uB_eq, ← pow_mul, hsplit, Nat.mod_mul_right_div_self,
    Nat.mod_mod_of_dvd _ hdvd, Nat.div_div_eq_div_mul, ← pow_add, hexp]

theorem val_set : ∀ (l : List Nat) (q w : Nat), q < l.length →
    val (l.set q w) + getD l q * uB ^ q = val l + w * uB ^ q := by
  intro l
  induction l with
  | nil => intro q w h; simp at h
  | cons x xs ih =>
    intro q w h
    cases q with
    | zero =>
      show (w + uB * val xs) + x * uB ^ 0 = (x + uB * val xs) + w * uB ^ 0
      rw [pow_zero]
      ring
    | succ q2 =>
      have hq : q2 < xs.length := by simp at h; omega
      have ihq := ih q2 w hq
      show (x + uB * val (xs.set q2 w)) + getD xs q2 * uB ^ (q2 + 1) =
        (x + uB * val xs) + w * uB ^ (q2 + 1)
      rw [pow_succ]
      calc (x + uB * val (xs.set q2 w)) + getD xs q2 * (uB ^ q2 * uB)
          = x + uB * (val (xs.set q2 w) + getD xs q2 * uB ^ q2) := by ring
        _ = x + uB * (val xs + w * uB ^ q2) := by rw [ihq]
        _ = (x + uB * val xs) + w * (uB ^ q2 * uB) := by ring

theorem val_replicate_zero (n : Nat) : val (List.replicate n 0) = 0 := by
  induction n with
  | zero => rfl
  | succ k ih =>
    show 0 + uB * val (List.replicate k 0) = 0
    rw [ih]
    simp

theorem wfD_replicate_zero (n : Nat) : wfD (List.replicate n 0) := by
  intro u hu
  rw [List.eq_of_mem_replicate hu]
  norm_num [uB]

theorem writeByte_props (dl : List Nat) (p b : Nat) (hw : wfD dl) (hq : p / 4 < dl.length)
    (hb : b < 256) (hz : val dl / 2 ^ (8 * p) % 256 = 0) :
    val (writeByte dl p b) = val dl + b * 2 ^ (8 * p) ∧ wfD (writeByte dl p b) ∧
      (writeByte dl p b).length = dl.length := by
  have hbyte : getD dl (p / 4) / 2 ^ (8 * (p % 4)) % 256 = 0 := by
    have hbv := byteOf_val dl hw p
    unfold byteOf at hbv
    rw [hbv, hz]
  have hwB : writeByte dl p b = dl.set (p / 4) (getD dl (p / 4) + b * 2 ^ (8 * (p % 4))) := by
    unfold writeByte
    rw [hbyte, Nat.zero_mul, Nat.sub_zero]
  have hg : getD dl (p / 4) < uB := hw _ (getD_mem dl (p / 4) hq)
  have hdig : getD dl (p / 4) + b * 2 ^ (8 * (p % 4)) < uB := by
    rw [uB_eq]
    rw [uB_eq] at hg
    have h4 : p % 4 = 0 ∨ p % 4 = 1 ∨ p % 4 = 2 ∨ p % 4 = 3 := by omega
    rcases h4 with h4 | h4 | h4 | h4 <;> rw [h4] at hbyte ⊢ <;> norm_num at hbyte ⊢ <;> omega
  have hwf2 : wfD (dl.set (p / 4) (getD dl (p / 4) + b * 2 ^ (8 * (p % 4)))) := by
    intro u hu
    rcases List.mem_or_eq_of_mem_set hu with h1 | h1
    · exact hw u h1
    · rw [h1]; exact hdig
  have hpows : (2 : Nat) ^ (8 * (p % 4)) * uB ^ (p / 4) = 2 ^ (8 * p) := by
    rw [uB_eq, ← pow_mul, ← pow_add]
    congr 1
    omega
  have hvs := val_set dl (p / 4) (getD dl (p / 4) + b * 2 ^ (8 * (p % 4))) hq
  rw [add_mul, mul_assoc, hpows] at hvs
  refine ⟨?_, ?_, ?_⟩
  · rw [hwB]
    omega
  · rw [hwB]; exact hwf2
  · rw [hwB, List.length_set]

theorem sbLoop_val : ∀ (bs dl : List Nat) (start : Nat), wfD dl →
    (∀ b ∈ bs, b < 256) → start + bs.length ≤ 4 * dl.length →
    val dl % 2 ^ (8 * (start + bs.length)) = 0 →
    val (sbLoop start dl bs) = val dl + bsum start bs ∧ wfD (sbLoop start dl bs) ∧
      (sbLoop start dl bs).length = dl.length := by
  intro bs
  induction bs with
  | nil =>
    intro dl start hw _ _ _
    refine ⟨?_, hw, rfl⟩
    show val dl = val dl + bsum start []
    simp [bsum]
  | cons b bs ih =>
    intro dl start hw hb hlen hz
    have hlen2 : start + bs.length + 1 ≤ 4 * dl.length := by
      simp only [List.length_cons] at hlen
      omega
    have hz2 : val dl % 2 ^ (8 * (start + bs.length + 1)) = 0 := by
      simp only [List.length_cons] at hz
      rw [show start + (bs.length + 1) = start + bs.length + 1 by ring] at hz
      exact hz
    have hdvd : (2 : Nat) ^ (8 * (start + bs.length + 1)) ∣ val dl :=
      Nat.dvd_of_mod_eq_zero hz2
    have hq : (start + bs.length) / 4 < dl.length := by omega
    have hz8p : val dl / 2 ^ (8 * (start + bs.length)) % 256 = 0 := by
      obtain ⟨k, hk⟩ := hdvd
      have hsp : (2 : Nat) ^ (8 * (start + bs.length + 1)) =
          2 ^ (8 * (start + bs.length)) * 256 := by
        rw [show 8 * (start + bs.length + 1) = 8 * (start + bs.length) + 8 by ring, pow_add]
        norm_num
      rw [hk, hsp, mul_assoc, Nat.mul_div_cancel_left _ (Nat.pos_pow_of_pos _ (by norm_num))]
      exact Nat.mul_mod_right 256 k
    obtain ⟨hv1, hwf1, hlen1⟩ := writeByte_props dl (start + bs.length) b hw hq
      (hb b (List.mem_cons_self _ _)) hz8p
    have hz3 : val (writeByte dl (start + bs.length) b) % 2 ^ (8 * (start + bs.length)) = 0 := by
      rw [hv1]
      obtain ⟨c, hc⟩ := dvd_add
        (dvd_trans (pow_dvd_pow 2 (by omega : 8 * (start + bs.length) ≤
          8 * (start + bs.length + 1))) hdvd)
        (dvd_mul_left (2 ^ (8 * (start + bs.length))) b)
      rw [hc, Nat.mul_mod_right]
    obtain ⟨hv2, hwf2, hlen2b⟩ := ih (writeByte dl (start + bs.length) b) start hwf1
      (fun u hu => hb u (List.mem_cons_of_mem _ hu)) (by rw [hlen1]; omega) hz3
    refine ⟨?_, hwf2, ?_⟩
    · show val (sbLoop start (writeByte dl (start + bs.length) b) bs) =
        val dl + bsum start (b :: bs)
      rw [hv2, hv1]
      show val dl + b * 2 ^ (8 * (start + bs.length)) + bsum start bs =
        val dl + (b * 2 ^ (8 * (start + bs.length)) + bsum start bs)
      ring
    · show (sbLoop start (writeByte dl (start + bs.length) b) bs).length = dl.length
      rw [hlen2b, hlen1]

theorem bsum_bytes : ∀ (L v : Nat),
    bsum 0 ((List.range L).map (fun i => v / 2 ^ (8 * (L - 1 - i)) % 256)) =
      v % 2 ^ (8 * L) := by
  intro L
  induction L with
  | zero => intro v; simp [bsum, Nat.mod_one]
  | succ L ih =>
    intro v
    rw [List.range_succ_eq_map, List.map_cons, List.map_map]
    have hf : ((fun i => v / 2 ^ (8 * (L + 1 - 1 - i)) % 256) ∘ Nat.succ) =
        (fun i => v / 2 ^ (8 * (L - 1 - i)) % 256) := by
      funext i
      show v / 2 ^ (8 * (L + 1 - 1 - (i + 1))) % 256 = v / 2 ^ (8 * (L - 1 - i)) % 256
      have : L + 1 - 1 - (i + 1) = L - 1 - i := by omega
      rw [this]
    rw [hf]
    show (v / 2 ^ (8 * (L + 1 - 1 - 0)) % 256) *
        2 ^ (8 * (0 + ((List.range L).map (fun i => v / 2 ^ (8 * (L - 1 - i)) % 256)).length)) +
        bsum 0 ((List.range L).map (fun i => v / 2 ^ (8 * (L - 1 - i)) % 256)) =
      v % 2 ^ (8 * (L + 1))
    rw [ih, List.length_map, List.length_range, Nat.zero_add,
      show L + 1 - 1 - 0 = L by omega,
      show 8 * (L + 1) = 8 * L + 8 by ring, pow_add,
      show (2 : Nat) ^ 8 = 256 by norm_num, Nat.mod_mul]
    ring

theorem b64pos_enc : ∀ k, k < 64 → b64pos (b64enc k) = (k : Int) := by decide

theorem b64encLoop_ne_nil : ∀ bs : List Nat, bs ≠ [] → b64encLoop bs ≠ []
  | [], hne => absurd rfl hne
  | [b0], _ => by simp [b64encLoop]
  | [b0, b1], _ => by simp [b64encLoop]
  | b0 :: b1 :: b2 :: rest, _ => by simp [b64encLoop]

theorem b64encLoop_length : ∀ bs : List Nat, (b64encLoop bs).length % 4 = 0
  | [] => by simp [b64encLoop]
  | [b0] => by simp [b64encLoop]
  | [b0, b1] => by simp [b64encLoop]
  | b0 :: b1 :: b2 :: rest => by
    have ih := b64encLoop_length rest
    simp only [b64encLoop, List.length_cons]
    omega

theorem b64decLoop_last (c0 c1 c2 c3 : Nat) (h0 : b64pos c0 ≠ -1) (h1 : b64pos c1 ≠ -1)
    (h23 : ¬(b64pos c2 = -1 ∧ b64pos c3 ≠ -1)) :
    b64decLoop [c0, c1, c2, c3] =
      some ([((b64pos c0 * 4 + b64pos c1 / 16) % 256).toNat,
             if b64pos c2 ≠ -1 then
               ((b64pos c1 % 16 * 16 + b64pos c2 / 4) % 256).toNat else 0,
             if b64pos c3 ≠ -1 then
               ((b64pos c2 % 4 * 64 + b64pos c3) % 256).toNat else 0],
            b64pos c2, b64pos c3) := by
  simp only [b64decLoop]
  rw [if_neg (fun hcc => hcc.elim h0 h1), if_neg h23]

theorem b64decLoop_cons (c0 c1 c2 c3 : Nat) (tail res : List Nat) (m2 m3 : Int)
    (ht : tail ≠ []) (h0 : b64pos c0 ≠ -1) (h1 : b64pos c1 ≠ -1)
    (h23 : ¬(b64pos c2 = -1 ∧ b64pos c3 ≠ -1))
    (hres : b64decLoop tail = some (res, m2, m3)) :
    b64decLoop (c0 :: c1 :: c2 :: c3 :: tail) =
      some (((b64pos c0 * 4 + b64pos c1 / 16) % 256).toNat ::
            (if b64pos c2 ≠ -1 then
              ((b64pos c1 % 16 * 16 + b64pos c2 / 4) % 256).toNat else 0) ::
            (if b64pos c3 ≠ -1 then
              ((b64pos c2 % 4 * 64 + b64pos c3) % 256).toNat else 0) :: res,
            m2, m3) := by
  cases tail with
  | nil => exact absurd rfl ht
  | cons c cs =>
    simp only [b64decLoop]
    rw [if_neg (fun hcc => hcc.elim h0 h1), if_neg h23, hres]

theorem b64rt : ∀ bs : List Nat, bs ≠ [] → (∀ b ∈ bs, b < 256) →
    ∃ n2 n3 : Int, b64decLoop (b64encLoop bs) =
        some (bs ++ List.replicate ((3 - bs.length % 3) % 3) 0, n2, n3) ∧
      (if n2 = -1 then 1 else 0) + (if n3 = -1 then 1 else 0) = (3 - bs.length % 3) % 3
  | [], hne, _ => absurd rfl hne
  | [b0], _, hb => by
    have hb0 : b0 < 256 := hb b0 (List.mem_cons_self _ _)
    have hm0 : b0 * 65536 / 262144 % 64 < 64 := Nat.mod_lt _ (by norm_num)
    have hm1 : b0 * 65536 / 4096 % 64 < 64 := Nat.mod_lt _ (by norm_num)
    have he0 := b64pos_enc _ hm0
    have he1 := b64pos_enc _ hm1
    have h61 : b64pos 61 = -1 := by decide
    refine ⟨-1, -1, ?_, by norm_num⟩
    simp only [b64encLoop]
    rw [b64decLoop_last _ _ _ _ (by rw [he0]; omega) (by rw [he1]; omega)
      (by rw [h61]; simp), he0, he1, h61]
    rw [if_neg (not_not_intro rfl), if_neg (not_not_intro rfl)]
    rw [show List.replicate ((3 - [b0].length % 3) % 3) 0 = [0, 0] from rfl]
    simp only [List.cons_append, List.nil_append, Option.some.injEq, Prod.mk.injEq,
      List.cons.injEq, eq_self_iff_true, and_true, true_and]
    omega
  | [b0, b1], _, hb => by
    have hb0 : b0 < 256 := hb b0 (List.mem_cons_self _ _)
    have hb1 : b1 < 256 := hb b1 (List.mem_cons_of_mem _ (List.mem_cons_self _ _))
    have hm0 : (b0 * 65536 + b1 * 256) / 262144 % 64 < 64 := Nat.mod_lt _ (by norm_num)
    have hm1 : (b0 * 65536 + b1 * 256) / 4096 % 64 < 64 := Nat.mod_lt _ (by norm_num)
    have hm2 : (b0 * 65536 + b1 * 256) / 64 % 64 < 64 := Nat.mod_lt _ (by norm_num)
    have he0 := b64pos_enc _ hm0
    have he1 := b64pos_enc _ hm1
    have he2 := b64pos_enc _ hm2
    have h61 : b64pos 61 = -1 := by decide
    have hne2 : (((b0 * 65536 + b1 * 256) / 64 % 64 : Nat) : Int) ≠ -1 := by omega
    refine ⟨(((b0 * 65536 + b1 * 256) / 64 % 64 : Nat) : Int), -1, ?_, ?_⟩
    · simp only [b64encLoop]
      rw [b64decLoop_last _ _ _ _ (by rw [he0]; omega) (by rw [he1]; omega)
        (by rw [he2]; exact fun hcc => hne2 hcc.1), he0, he1, he2, h61]
      rw [if_pos hne2, if_neg (not_not_intro rfl)]
      rw [show List.replicate ((3 - [b0, b1].length % 3) % 3) 0 = [0] from rfl]
      simp only [List.cons_append, List.nil_append, Option.some.injEq, Prod.mk.injEq,
        List.cons.injEq, eq_self_iff_true, and_true, true_and]
      omega
    · rw [if_neg hne2, if_pos rfl]
      rfl
  | b0 :: b1 :: b2 :: rest, _, hb => by
    have hb0 : b0 < 256 := hb b0 (List.mem_cons_self _ _)
    have hb1 : b1 < 256 := hb b1 (List.mem_cons_of_mem _ (List.mem_cons_self _ _))
    have hb2 : b2 < 256 :=
      hb b2 (List.mem_cons_of_mem _ (List.mem_cons_of_mem _ (List.mem_cons_self _ _)))
    have hm0 : (b0 * 65536 + b1 * 256 + b2) / 262144 % 64 < 64 := Nat.mod_lt _ (by norm_num)
    have hm1 : (b0 * 65536 + b1 * 256 + b2) / 4096 % 64 < 64 := Nat.mod_lt _ (by norm_num)
    have hm2 : (b0 * 65536 + b1 * 256 + b2) / 64 % 64 < 64 := Nat.mod_lt _ (by norm_num)
    have hm3 : (b0 * 65536 + b1 * 256 + b2) % 64 < 64 := Nat.mod_lt _ (by norm_num)
    have he0 := b64pos_enc _ hm0
    have he1 := b64pos_enc _ hm1
    have he2 := b64pos_enc _ hm2
    have he3 := b64pos_enc _ hm3
    have hne2 : (((b0 * 65536 + b1 * 256 + b2) / 64 % 64 : Nat) : Int) ≠ -1 := by omega
    have hne3 : (((b0 * 65536 + b1 * 256 + b2) % 64 : Nat) : Int) ≠ -1 := by omega
    cases rest with
    | nil =>
      refine ⟨(((b0 * 65536 + b1 * 256 + b2) / 64 % 64 : Nat) : Int),
        (((b0 * 65536 + b1 * 256 + b2) % 64 : Nat) : Int), ?_, ?_⟩
      · simp only [b64encLoop]
        rw [b64decLoop_last _ _ _ _ (by rw [he0]; omega) (by rw [he1]; omega)
          (by rw [he2]; exact fun hcc => hne2 hcc.1), he0, he1, he2, he3]
        rw [if_pos hne2, if_pos hne3]
        rw [show List.replicate ((3 - [b0, b1, b2].length % 3) % 3) 0 = ([] : List Nat)
          by norm_num, List.append_nil]
        simp only [Option.some.injEq, Prod.mk.injEq, List.cons.injEq,
          eq_self_iff_true, and_true, true_and]
        omega
      · rw [if_neg hne2, if_neg hne3]
        norm_num
    | cons r rs =>
      obtain ⟨n2, n3, hdec, hcnt⟩ := b64rt (r :: rs) (by simp)
        (fun u hu => hb u (List.mem_cons_of_mem _ (List.mem_cons_of_mem _
          (List.mem_cons_of_mem _ hu))))
      have hpad : (3 - (r :: rs).length % 3) % 3 =
          (3 - (b0 :: b1 :: b2 :: r :: rs).length % 3) % 3 := by
        simp only [List.length_cons]
        omega
      refine ⟨n2, n3, ?_, ?_⟩
      · simp only [b64encLoop]
        rw [b64decLoop_cons _ _ _ _ _ _ _ _ (b64encLoop_ne_nil (r :: rs) (by simp))
          (by rw [he0]; omega) (by rw [he1]; omega)
          (by rw [he2]; exact fun hcc => hne2 hcc.1) hdec,
          he0, he1, he2, he3]
        rw [if_pos hne2, if_pos hne3, hpad]
        simp only [List.cons_append, Option.some.injEq, Prod.mk.injEq, List.cons.injEq,
          eq_self_iff_true, and_true, true_and]
        omega
      · rw [← hpad]
        exact hcnt

theorem FromBase64_dec (bs : List Nat) (hne : bs ≠ []) (hlt : ∀ b ∈ bs, b < 256)
    (hgrow : bs.length ≤ 1024) :
    FromBase64 zeroS (b64encLoop bs) =
      (VLONG_SUCCESS, Clamp (vstate.mk (if getD bs 0 = 0 then 1 else -1)
        (sbLoop 0 (List.replicate ((bs.length - 1 + 3) / 4) 0) (bs.drop 1)))) := by
  obtain ⟨n2, n3, hdec, hcnt⟩ := b64rt bs hne hlt
  have hdlen : (bs ++ List.replicate ((3 - bs.length % 3) % 3) 0).length -
      (if n2 = -1 then 1 else 0) - (if n3 = -1 then 1 else 0) = bs.length := by
    simp only [List.length_append, List.length_replicate]
    omega
  have htake : (bs ++ List.replicate ((3 - bs.length % 3) % 3) 0).take bs.length = bs :=
    List.take_left bs _
  have hSB : SetBytes { zeroS with s := 1 } 0 (bs.length - 1) (bs.drop 1) =
      Except.ok (vstate.mk 1
        (sbLoop 0 (List.replicate ((bs.length - 1 + 3) / 4) 0) (bs.drop 1))) := by
    have hdroplen : (bs.drop 1).length = bs.length - 1 := by
      rw [List.length_drop]
    unfold SetBytes
    simp only [zeroS, List.length_nil]
    rcases Nat.eq_zero_or_pos (bs.length - 1) with hc | hc
    · rw [if_neg (by omega)]
      have hbsd : bs.drop 1 = [] := List.eq_nil_of_length_eq_zero (by omega)
      rw [hc, hbsd]
      rfl
    · rw [if_pos (by omega)]
      unfold growOk
      rw [if_neg (by omega)]
      rw [Nat.zero_add, ← hdroplen, List.take_length]
      rfl
  unfold FromBase64
  rw [if_neg (b64encLoop_ne_nil bs hne), if_neg (not_not_intro (b64encLoop_length bs)), hdec]
  dsimp only
  rw [hdlen, htake]
  unfold FromBinary
  rw [hSB]
  dsimp only
  rw [if_neg (not_not_intro rfl)]
  have hgd : getD (bs ++ List.replicate ((3 - bs.length % 3) % 3) 0) 0 = getD bs 0 := by
    cases bs with
    | nil => exact absurd rfl hne
    | cons sb tl => rfl
  rw [hgd]

/-- C7: the BASE64 round trip `FromBase64(ToBase64Buf(x))` returns `x`
    unchanged, sign included, for every well-formed clamped value whose
    magnitude has at most 8184 bits (1023 bytes); beyond that the decode
    side fails (see the counterexample at `2 ^ 8192`). -/
theorem C7_base64_roundtrip (x : vstate) (hwf : x.wf) (hcl : clampInv x)
    (hsi : signInv x) (hsz : GetNumBits x ≤ 8184) :
    roundTrip x = (VLONG_SUCCESS, x) := by
  by_cases hd : x.d = []
  · have hs1 : x.s = 1 := hsi hd
    have hx : x = zeroS := by
      rw [show x = vstate.mk x.s x.d from rfl, hs1, hd]
      rfl
    rw [hx]
    rfl
  · have hwd : wfD x.d := hwf.1
    have hbits1 : 0 < GetNumBits x := numBits_pos x hcl hd
    have hbitsle : GetNumBits x ≤ 32 * x.d.length := numBits_le x hwd
    have hvlt : val x.d < 2 ^ GetNumBits x := val_lt_numBits x hwd
    have hvL : val x.d < 2 ^ (8 * ((GetNumBits x + 7) / 8)) :=
      lt_of_lt_of_le hvlt (Nat.pow_le_pow_right (by norm_num) (by omega))
    have hTB : ToBinary x ((GetNumBits x + 7) / 8) =
        Except.ok ((List.range ((GetNumBits x + 7) / 8)).map
          (fun i => byteOf x.d (0 + (GetNumBits x + 7) / 8 - 1 - i))) := by
      unfold ToBinary GetBytes
      rw [if_neg (by omega), if_neg (by omega)]
    have henc : ToBase64Buf x = Except.ok (b64encLoop ((if x.s = 1 then 0 else 1) ::
        (List.range ((GetNumBits x + 7) / 8)).map
          (fun i => byteOf x.d (0 + (GetNumBits x + 7) / 8 - 1 - i)))) := by
      unfold ToBase64Buf
      rw [Nat.add_sub_cancel, hTB]
    set bs0 := (List.range ((GetNumBits x + 7) / 8)).map
      (fun i => byteOf x.d (0 + (GetNumBits x + 7) / 8 - 1 - i)) with hbs0
    have hlenbs : bs0.length = (GetNumBits x + 7) / 8 := by
      rw [hbs0, List.length_map, List.length_range]
    have hblt : ∀ b ∈ bs0, b < 256 := by
      intro b hb
      rw [hbs0] at hb
      obtain ⟨i, _, hbi⟩ := List.mem_map.mp hb
      rw [← hbi]
      unfold byteOf
      exact Nat.mod_lt _ (by norm_num)
    have hsblt : ∀ b ∈ ((if x.s = 1 then 0 else 1) :: bs0), b < 256 := by
      intro b hb
      rcases List.mem_cons.mp hb with h1 | h1
      · rw [h1]
        split <;> norm_num
      · exact hblt b h1
    have hdecf := FromBase64_dec ((if x.s = 1 then 0 else 1) :: bs0) (by simp) hsblt
      (by rw [List.length_cons, hlenbs]; omega)
    rw [show getD ((if x.s = 1 then 0 else 1) :: bs0) 0 = (if x.s = 1 then 0 else 1)
      from rfl] at hdecf
    rw [show ((if x.s = 1 then 0 else 1) :: bs0).drop 1 = bs0 from rfl] at hdecf
    rw [List.length_cons, Nat.add_sub_cancel, hlenbs] at hdecf
    obtain ⟨hvD, hwfD2, hlenD⟩ := sbLoop_val bs0
      (List.replicate (((GetNumBits x + 7) / 8 + 3) / 4) 0) 0
      (wfD_replicate_zero _) hblt (by rw [hlenbs, List.length_replicate]; omega)
      (by rw [val_replicate_zero]; exact Nat.zero_mod _)
    rw [val_replicate_zero, Nat.zero_add] at hvD
    have hmap2 : bs0 = (List.range ((GetNumBits x + 7) / 8)).map
        (fun i => val x.d / 2 ^ (8 * ((GetNumBits x + 7) / 8 - 1 - i)) % 256) := by
      rw [hbs0]
      refine List.map_congr_left ?_
      intro i _
      rw [byteOf_val x.d hwd, Nat.zero_add]
    have hbsum : bsum 0 bs0 = val x.d := by
      rw [hmap2, bsum_bytes]
      exact Nat.mod_eq_of_lt hvL
    rw [hbsum] at hvD
    have hclD : clampD (sbLoop 0 (List.replicate (((GetNumBits x + 7) / 8 + 3) / 4) 0) bs0) =
        x.d := by
      refine val_inj _ _ ?_ hwd (clampD_getLast _) hcl ?_
      · intro u hu
        exact hwfD2 u (clampD_subset _ u hu)
      · rw [clampD_val, hvD]
    have hCl : Clamp (vstate.mk (if (if x.s = 1 then 0 else 1) = 0 then 1 else -1)
        (sbLoop 0 (List.replicate (((GetNumBits x + 7) / 8 + 3) / 4) 0) bs0)) =
        vstate.mk (if (if x.s = 1 then 0 else 1) = 0 then 1 else -1) x.d := by
      unfold Clamp
      dsimp only
      rw [hclD, if_neg hd]
    unfold roundTrip
    rw [henc]
    dsimp only
    rw [hdecf, hCl]
    rcases hwf.2 with hs | hs
    · have hsgn : (if (if x.s = 1 then 0 else 1) = 0 then (1 : Int) else -1) = x.s := by
        rw [hs]
        norm_num
      rw [hsgn]
    · have hsgn : (if (if x.s = 1 then 0 else 1) = 0 then (1 : Int) else -1) = x.s := by
        rw [hs]
        norm_num
      rw [hsgn]

/-- Witness for C7: the round trip at the negative value `-5`. -/
theorem C7_base64_roundtrip_witness :
    ({ s := -1, d := [5] } : vstate).wf ∧ clampInv { s := -1, d := [5] } ∧
      signInv { s := -1, d := [5] } ∧ GetNumBits { s := -1, d := [5] } ≤ 8184 ∧
      roundTrip { s := -1, d := [5] } = (VLONG_SUCCESS, { s := -1, d := [5] }) :=
  ⟨by decide, by decide, by decide, by decide,
    C7_base64_roundtrip { s := -1, d := [5] } (by decide) (by decide) (by decide) (by decide)⟩

/-- Counterexample to the unrestricted round-trip claim: encoding `2 ^ 8192`
    (a well-formed, clamped, 8193-bit value) succeeds, but decoding fails
    with `VLONG_ERR_MEMORY_EXEED` because `SetBytes` passes the BYTE count
    `start + count + 1 = 1026` to the digit allocator `Grow`, overrunning
    the 1024-digit ceiling, so the round trip loses the value. -/
theorem C7_large_roundtrip_fails :
    x8192.wf ∧ clampInv x8192 ∧ signInv x8192 ∧ GetNumBits x8192 = 8193 ∧
      roundTrip x8192 = (VLONG_ERR_MEMORY_EXEED, zeroS) :=
  ⟨by decide, by decide, by decide, by decide, by decide⟩
